import Mathlib

/-!
# RS-485 automatic driver-enable controller (`rs485.cpp`, ATtiny13)

A shallow embedding of the firmware: the device registers the program touches,
the three interrupt handlers, the initialisation sequence and one iteration of
the main loop, followed by the theorems about them.

Registers are natural numbers holding 8-bit values; every store of a C `int`
expression into an 8-bit register is written with an explicit `% 256`, and the
16-bit `int`/`uint16_t` arithmetic of the AVR is written with `% 65536`.
-/

namespace Rs485

/-! ## Constants of `<avr/io.h>` for the ATtiny13 -/

/-- Bit number of ADC enable in `ADCSRA`. -/
def ADEN : Nat := 7
/-- Bit number of ADC start-conversion in `ADCSRA`. -/
def ADSC : Nat := 6
/-- Bit number of the ADC conversion-complete flag in `ADCSRA`. -/
def ADIF : Nat := 4
/-- Sleep mode selector value of `SLEEP_MODE_IDLE`. -/
def SLEEP_MODE_IDLE : Nat := 0

/-- Bitwise complement of a C `int` (16 bits wide on the AVR), as the unsigned
16-bit pattern of the result. -/
def cnot (x : Nat) : Nat := 65535 - x % 65536

/-! ## Program data -/

/-- Line 52: `uint8_t ticktable[]={1,2,3,6,12,24,47,94};` -/
def ticktable : List Nat := [1, 2, 3, 6, 12, 24, 47, 94]

/-- Bit rates of the table in the comment of lines 41-48, listed in the order
of the entries of `ticktable` (115200 bps has 1 tick, 1200 bps has 94). -/
def bitrates : List Nat := [115200, 57600, 38400, 19200, 9600, 4800, 2400, 1200]

/-- Lines 35-37 and 50: system clock in Hz. -/
def F_CPU : Nat := 9600000

/-- Lines 36-37 and 66: timer clock prescale factor. -/
def PRESCALE : Nat := 1024

/-- The machine state: the I/O registers the program reads or writes, and the
global `pulseticks`. -/
structure State where
  MCUSR : Nat
  MCUCR : Nat
  DDRB : Nat
  PORTB : Nat
  WDTCR : Nat
  /-- Counter of the watchdog timer, cleared by the `wdr` instruction. -/
  wdtcnt : Nat
  GIMSK : Nat
  DIDR0 : Nat
  ADMUX : Nat
  ADCSRA : Nat
  ADCL : Nat
  ADCH : Nat
  TCCR0A : Nat
  TCCR0B : Nat
  GTCCR : Nat
  TCNT0 : Nat
  TIFR0 : Nat
  TIMSK0 : Nat
  /-- Line 56: `volatile uint8_t pulseticks`. -/
  pulseticks : Nat
  deriving DecidableEq, Repr

/-! ## Register write semantics -/

/-- Store `v` into a register whose bits in `flags` are hardware flags: a flag
is cleared by writing one to it and unchanged by writing zero; the other bits
take the written value. -/
def writeFlagReg (flags old v : Nat) : Nat :=
  ((v % 256) &&& (255 - flags)) ||| ((old &&& flags) &&& (255 - v % 256))

/-- Store into `ADCSRA`; `ADIF` is the only flag bit. -/
def writeADCSRA (old v : Nat) : Nat := writeFlagReg (1 <<< ADIF) old v

/-- Store into `TIFR0`; `OCF0B`, `OCF0A` and `TOV0` (bits 3, 2, 1) are flags. -/
def writeTIFR0 (old v : Nat) : Nat := writeFlagReg 0x0e old v

/-- Store into `GTCCR`: bit 0 (`PSR10`) is a strobe that resets the timer
prescaler and reads back as zero. -/
def writeGTCCR (v : Nat) : Nat := (v % 256) &&& 0xfe

/-! ## Interrupt handlers -/

/-- Lines 63-72: `ISR(INT0_vect)`, the falling-edge handler. -/
def isrINT0 (s : State) : State :=
  let s := { s with PORTB := ((s.PORTB ||| 0x01) &&& cnot 0x08) % 256 }
  let s := { s with TCCR0B := 0x05 }
  let s := { s with TCCR0A := 0x00 }
  let s := { s with GTCCR := writeGTCCR 1 }
  let s := { s with TCNT0 := s.pulseticks }
  let s := { s with TIFR0 := writeTIFR0 s.TIFR0 0x02 }
  { s with TIMSK0 := 0x02 }

/-- Lines 80-90: `ISR(TIM0_OVF_vect)`, the timer-overflow handler. -/
def isrTIM0_OVF (s : State) : State :=
  if s.PORTB &&& 0x01 ≠ 0 then
    { s with PORTB := (s.PORTB &&& cnot 0x01) % 256 }
  else
    let s := { s with PORTB := (s.PORTB ||| 0x08) % 256 }
    { s with TIMSK0 := 0x00 }

/-- Lines 93-95: `ISR(WDT_vect)`, whose body is empty. -/
def isrWDT (s : State) : State := s

/-! ## `main` -/

/-- Lines 114-132: the initialisation done by `main` before its loop. -/
def mainInit (s : State) : State :=
  let s := { s with MCUSR := 0 }
  let s := { s with MCUCR := 0 }
  let s := { s with DDRB := 0x09 }
  let s := { s with PORTB := 0x2e }
  -- set_sleep_mode(SLEEP_MODE_IDLE): SM1:0 are bits 4:3 of MCUCR
  let s := { s with MCUCR := ((s.MCUCR &&& cnot 0x18) ||| SLEEP_MODE_IDLE) % 256 }
  -- sleep_enable(): SE is bit 5 of MCUCR
  let s := { s with MCUCR := (s.MCUCR ||| 0x20) % 256 }
  let s := { s with WDTCR := (s.WDTCR ||| 0x18) % 256 }
  let s := { s with WDTCR := 0xe8 }
  let s := { s with MCUCR := 0x02 }
  let s := { s with GIMSK := 0x40 }
  let s := { s with DIDR0 := 0x10 }
  let s := { s with ADMUX := 0x02 }
  let v := (1 <<< ADEN) ||| (1 <<< ADSC) ||| (1 <<< ADIF) ||| 7
  -- sei() follows: from here on the handlers run, as the events below
  { s with ADCSRA := writeADCSRA s.ADCSRA v }

/-- Lines 143-145: the table index computed from the two ADC data registers,
`av=ADCL; av|=(ADCH<<8); av=(av>>7)&7;` with `av` a `uint16_t`. -/
def calibIndex (adcl adch : Nat) : Nat :=
  let av := adcl % 65536
  let av := (av ||| (adch <<< 8) % 65536) % 65536
  (av >>> 7) &&& 7

/-- Lines 135-148: the body of the main loop after `sleep_cpu()` returns. The
index `av` is below 8 (`calibIndex_lt`), so the table lookup never takes the
default. -/
def mainLoop (s : State) : State :=
  -- wdt_reset()
  let s := { s with wdtcnt := 0 }
  let s := { s with WDTCR := (s.WDTCR ||| 0x40) % 256 }
  if s.ADCSRA &&& (1 <<< ADIF) ≠ 0 then
    let av := calibIndex s.ADCL s.ADCH
    let s := { s with pulseticks := (256 - ticktable.getD av 0) % 256 }
    let v := (1 <<< ADEN) ||| (1 <<< ADSC) ||| (1 <<< ADIF) ||| 7
    { s with ADCSRA := writeADCSRA s.ADCSRA v }
  else s

/-! ## Hardware events -/

/-- The ADC finishes a conversion: the result is latched in `ADCL`/`ADCH`,
`ADSC` returns to zero and `ADIF` is set. The result bytes are arbitrary 8-bit
values, which covers the 10-bit results of the real converter. -/
def adcComplete (s : State) (lo hi : Nat) : State :=
  { s with ADCL := lo % 256, ADCH := hi % 256,
           ADCSRA := ((s.ADCSRA % 256) &&& (255 - (1 <<< ADSC))) ||| (1 <<< ADIF) }

/-- Timer 0 counts prescaler ticks in the configuration the edge handler
programs: clock select 5 (clk/1024) and waveform mode 0. Other configurations
are never programmed by the firmware; the counter is left alone in them. -/
def timerCounting (s : State) : Bool := s.TCCR0B == 0x05 && s.TCCR0A == 0x00

/-- The counter value after one more tick. -/
def tcntNext (c : Nat) : Nat := (c + 1) % 256

/-- Whether the next tick takes the counter from 255 to 0 (lines 58-62). -/
def tcntWraps (c : Nat) : Bool := tcntNext c == 0

/-- The counter value after `k` ticks from `c`. -/
def tcntAfter (c : Nat) : Nat → Nat
  | 0 => c
  | k + 1 => tcntNext (tcntAfter c k)

/-- Whether the overflow interrupt is requested and enabled: `TOV0` set in
`TIFR0` and `TOIE0` set in `TIMSK0`. -/
def ovfPending (s : State) : Bool := s.TIFR0 &&& 0x02 != 0 && s.TIMSK0 &&& 0x02 != 0

/-- The counter part of a timer tick: a running counter advances and sets
`TOV0` in `TIFR0` when it wraps to zero. -/
def timerCount (s : State) : State :=
  if timerCounting s then
    { s with TCNT0 := tcntNext s.TCNT0,
             TIFR0 := if tcntWraps s.TCNT0 then (s.TIFR0 ||| 0x02) % 256 else s.TIFR0 }
  else s

/-- A requested and enabled overflow interrupt is taken: the hardware clears
`TOV0` and `ISR(TIM0_OVF_vect)` runs. -/
def ovfDispatch (s : State) : State :=
  if ovfPending s then
    isrTIM0_OVF { s with TIFR0 := (s.TIFR0 % 256) &&& 0xfd }
  else s

/-- One tick of the prescaled timer clock: the counter advances, then an
overflow interrupt that is requested and enabled is taken. -/
def timerTick (s : State) : State := ovfDispatch (timerCount s)

/-- What can happen to the machine between two instructions of the main loop. -/
inductive Event where
  /-- A falling edge on the transmit line: `ISR(INT0_vect)` runs. -/
  | edge
  /-- A run of `ISR(TIM0_OVF_vect)`. -/
  | ovf
  /-- A watchdog wake-up: `ISR(WDT_vect)` runs. -/
  | wdt
  /-- One iteration of the main loop. -/
  | main
  /-- The ADC completes a conversion with result bytes `lo`, `hi`. -/
  | adc (lo hi : Nat)
  /-- One tick of the timer clock. -/
  | tick
  deriving DecidableEq, Repr

/-- The effect of one event. -/
def step (s : State) : Event → State
  | .edge => isrINT0 s
  | .ovf => isrTIM0_OVF s
  | .wdt => isrWDT s
  | .main => mainLoop s
  | .adc lo hi => adcComplete s lo hi
  | .tick => timerTick s

/-- The state after a sequence of events. -/
def run (s : State) : List Event → State
  | [] => s
  | e :: es => run (step s e) es

/-- The state at power-on: the I/O registers have their reset value zero and
`pulseticks` its initialiser of line 56. -/
def powerOn : State :=
  { MCUSR := 0, MCUCR := 0, DDRB := 0, PORTB := 0, WDTCR := 0, wdtcnt := 0,
    GIMSK := 0, DIDR0 := 0, ADMUX := 0, ADCSRA := 0, ADCL := 0, ADCH := 0,
    TCCR0A := 0, TCCR0B := 0, GTCCR := 0, TCNT0 := 0, TIFR0 := 0, TIMSK0 := 0,
    pulseticks := (256 - 6) % 256 }

/-! ## Observations -/

/-- Driver-enable is PB0, active high. -/
def driverOn (s : State) : Bool := s.PORTB.testBit 0

/-- The LED is on PB3, active low. -/
def ledOn (s : State) : Bool := !s.PORTB.testBit 3

/-- The idle state of the timing machine: driver off, LED off, overflow
interrupt disabled. -/
def isIdle (s : State) : Bool := !driverOn s && !ledOn s && s.TIMSK0 == 0

/-! ## Quantities used in the statements -/

/-- The eight values `pulseticks` can take: `256 - ticktable[i]`. -/
def pulseValues : List Nat := [255, 254, 253, 250, 244, 232, 209, 162]

/-- Duration of one timer tick in seconds: the prescale factor over the clock
frequency (lines 35-37). -/
def tickSeconds : ℚ := (PRESCALE : ℚ) / (F_CPU : ℚ)

/-- Duration of one bit in seconds at `b` bits per second. -/
def bitSeconds (b : Nat) : ℚ := 1 / (b : ℚ)

/-- How many overflow-handler runs separate a state from idle at most: 2 with
the driver on, 0 when idle, 1 otherwise. -/
def phaseRank (s : State) : Nat :=
  if driverOn s then 2 else if isIdle s then 0 else 1

/-- The states passed through by a sequence of events, one after each event. -/
def trace (s : State) : List Event → List State
  | [] => []
  | e :: es => step s e :: trace (step s e) es

/-- Whether handling event `e` in state `s` runs the overflow handler: a run of
the handler itself, or a tick at which the overflow interrupt is taken. -/
def ovfTaken (s : State) : Event → Bool
  | .ovf => true
  | .tick => ovfPending (timerCount s)
  | _ => false

/-- Number of overflow-handler runs along a sequence of events. -/
def ovfRuns (s : State) : List Event → Nat
  | [] => 0
  | e :: es => (if ovfTaken s e then 1 else 0) + ovfRuns (step s e) es

/-- A number of consecutive timer ticks. -/
def ticks (k : Nat) : List Event := List.replicate k Event.tick

/-- A train of falling edges: one edge for each entry of `gaps`, followed by
that many timer ticks before the next edge. -/
def edgeTrain : List Nat → List Event
  | [] => []
  | g :: gs => Event.edge :: (ticks g ++ edgeTrain gs)

/-- Number of timer ticks in a sequence of events. -/
def countTicks (evs : List Event) : Nat := evs.count Event.tick

/-- A sequence of events with no falling edge and no overflow-handler run other
than those the timer itself raises: only timer ticks, main-loop iterations,
watchdog wake-ups and ADC results. -/
def undisturbed (evs : List Event) : Prop := Event.edge ∉ evs ∧ Event.ovf ∉ evs

instance (evs : List Event) : Decidable (undisturbed evs) := by
  unfold undisturbed; infer_instance

/-- The timer and output state `t` ticks after a falling edge that loaded a
countdown of `n` ticks: the short phase while `t < n`, the long phase for the
next 256 ticks, idle afterwards. -/
def afterEdge (n t : Nat) (s : State) : Prop :=
  s.TCCR0A = 0 ∧ s.TCCR0B = 5 ∧
  (t < n → s.PORTB.testBit 0 = true ∧ s.PORTB.testBit 3 = false ∧ s.TIMSK0 = 2 ∧
    s.TCNT0 = 256 - n + t ∧ s.TIFR0.testBit 1 = false) ∧
  (n ≤ t → t < n + 256 → s.PORTB.testBit 0 = false ∧ s.PORTB.testBit 3 = false ∧
    s.TIMSK0 = 2 ∧ s.TCNT0 = t - n ∧ s.TIFR0.testBit 1 = false) ∧
  (n + 256 ≤ t → s.PORTB.testBit 0 = false ∧ s.PORTB.testBit 3 = true ∧ s.TIMSK0 = 0)

instance (n t : Nat) (s : State) : Decidable (afterEdge n t s) := by
  unfold afterEdge; infer_instance

/-- Number of overflows `t` ticks after an edge that loaded a countdown of `n`
ticks: the first ends the short phase, the second ends the long phase. -/
def overflowsBy (n t : Nat) : Nat :=
  if t < n then 0 else if t < n + 256 then 1 else 2

/-- Lines 100-107: the documented I/O table, one `(DDR, PORT)` pair for each
of the pins PB0 .. PB5. -/
def ioTable : List (Bool × Bool) :=
  [(true, false), (false, true), (false, true), (true, true), (false, false), (false, true)]

/-- The values of `PORTB` after initialisation: idle (0x2e), driver and LED on
(0x27), LED only (0x26). -/
def portValues : List Nat := [0x2e, 0x27, 0x26]

/-- A watchdog wake-up: `ISR(WDT_vect)`, then the main-loop iteration it
wakes. -/
def watchdogWake (s : State) : State := mainLoop (isrWDT s)

/-- Whether no main-loop iteration of a run finds `ADIF` set. -/
def adifUnseen (s : State) : List Event → Bool
  | [] => true
  | e :: es =>
    (e != Event.main || s.ADCSRA &&& (1 <<< ADIF) == 0) && adifUnseen (step s e) es

/-- The event of a conversion completing with the 10-bit result `v`. -/
def sample (v : Nat) : Event := Event.adc (v % 256) (v / 256)

/-- The outputs and the timer agree: either the port is idle with the
overflow interrupt off, or the LED is on with the timer clocked in mode 0 and
the overflow interrupt on. -/
def armedInv (s : State) : Prop :=
  (s.PORTB = 0x2e ∧ s.TIMSK0 = 0) ∨
  ((s.PORTB = 0x27 ∨ s.PORTB = 0x26) ∧ s.TIMSK0 = 0x02 ∧ s.TCCR0B = 5 ∧ s.TCCR0A = 0)

instance (s : State) : Decidable (armedInv s) := by
  unfold armedInv; infer_instance

/-- While the LED is on the machine is in the short or the long phase of some
countdown, so that the overflows ending these phases are still to come. -/
def liveInv (s : State) : Prop :=
  s.pulseticks < 256 ∧
  (s.PORTB.testBit 3 = false → ∃ n t, 0 < n ∧ n ≤ 256 ∧ t < n + 256 ∧ afterEdge n t s)

/-- A train of falling edges with the activity between them: one edge for
each segment, followed by the events of that segment. -/
def edgeRun : List (List Event) → List Event
  | [] => []
  | seg :: segs => Event.edge :: (seg ++ edgeRun segs)

/-- Whether each edge of a train is followed, before the next edge, by
undisturbed events (ticks, main-loop iterations, watchdog wake-ups, ADC
results) with fewer timer ticks than the countdown that edge loads,
`256 - pulseticks` at the time the edge is taken. -/
def spaced (s : State) : List (List Event) → Bool
  | [] => true
  | seg :: segs =>
    decide (undisturbed seg) && decide (countTicks seg < 256 - s.pulseticks)
      && spaced (run s (Event.edge :: seg)) segs

/-- The state after initialisation and a calibration to index 7 (conversion
result 1023): `pulseticks = 162`, a countdown of 94 ticks. -/
def calibrated94 : State := mainLoop (adcComplete (mainInit powerOn) 255 3)

/-- The activity between two edges 50 ticks apart: ticks, a watchdog wake-up
and the main-loop iteration it wakes. -/
def fiftyTicks : List Event := ticks 25 ++ [Event.wdt, Event.main] ++ ticks 25

/-! ## Arithmetic of the calibration step -/

theorem calibIndex_lt (adcl adch : Nat) : calibIndex adcl adch < 8 := by
  unfold calibIndex
  exact Nat.lt_succ_of_le Nat.and_le_right

theorem ticktable_length : ticktable.length = 8 := rfl

/-- For 8-bit register values the 16-bit truncations of `calibIndex` do
nothing: the index is `((ADCH<<8)|ADCL) >> 7 & 7`. -/
theorem calibIndex_eq (adcl adch : Nat) (hl : adcl < 256) (hh : adch < 256) :
    calibIndex adcl adch = (((adch <<< 8) ||| adcl) >>> 7) &&& 7 := by
  unfold calibIndex
  have h1 : adcl % 65536 = adcl := Nat.mod_eq_of_lt (by omega)
  have h2 : adch <<< 8 < 65536 := by
    rw [Nat.shiftLeft_eq]; omega
  have h3 : (adch <<< 8) % 65536 = adch <<< 8 := Nat.mod_eq_of_lt h2
  have h4 : adcl ||| adch <<< 8 < 2 ^ 16 :=
    Nat.or_lt_two_pow (by omega) (by simpa using h2)
  have h5 : (adcl ||| adch <<< 8) % 65536 = adcl ||| adch <<< 8 :=
    Nat.mod_eq_of_lt (by simpa using h4)
  simp only [h1, h3, h5]
  rw [Nat.or_comm]

/-- A sample split into its low and high byte is put together again by
`(ADCH<<8)|ADCL`. -/
theorem combine_bytes (v : Nat) : ((v / 256) <<< 8) ||| (v % 256) = v := by
  rw [Nat.shiftLeft_eq, Nat.mul_comm]
  have h := Nat.mul_add_lt_is_or (show v % 256 < 2 ^ 8 by omega) (v / 256)
  rw [← h]
  omega

theorem calibIndex_sample (v : Nat) (hv : v ≤ 1023) :
    calibIndex (v % 256) (v / 256) = v / 128 := by
  rw [calibIndex_eq _ _ (by omega) (by omega), combine_bytes, Nat.shiftRight_eq_div_pow]
  have h : v / 2 ^ 7 < 2 ^ 3 := by omega
  have h' := Nat.and_pow_two_sub_one_of_lt_two_pow h
  simpa using h'

theorem tcntAfter_eq (c k : Nat) (hc : c < 256) : tcntAfter c k = (c + k) % 256 := by
  induction k with
  | zero => simp [tcntAfter, Nat.mod_eq_of_lt hc]
  | succ k ih => simp only [tcntAfter, ih, tcntNext]; omega

theorem tcntWraps_iff (c : Nat) : tcntWraps c = true ↔ c % 256 = 255 := by
  simp only [tcntWraps, tcntNext, beq_iff_eq]; omega

/-- A counter loaded with `256 - n`, `1 <= n <= 256` (as an 8-bit value), wraps
for the first time on the `n`-th tick. -/
theorem first_wrap (n j : Nat) (hn : 0 < n) (hn' : n ≤ 256) (hj : j < n) :
    tcntWraps (tcntAfter ((256 - n) % 256) j) = true ↔ j + 1 = n := by
  rw [tcntWraps_iff, tcntAfter_eq _ _ (Nat.mod_lt _ (by norm_num))]
  omega

theorem ticktable_getD_pos (i : Nat) (hi : i < 8) :
    0 < ticktable.getD i 0 ∧ ticktable.getD i 0 ≤ 94 := by
  interval_cases i <;> decide

theorem mainLoop_pulseticks_of_flag (s : State) (h : s.ADCSRA &&& (1 <<< ADIF) ≠ 0) :
    (mainLoop s).pulseticks = (256 - ticktable.getD (calibIndex s.ADCL s.ADCH) 0) % 256 := by
  simp only [mainLoop]
  rw [if_pos h]

theorem mainLoop_pulseticks_of_not_flag (s : State) (h : ¬ s.ADCSRA &&& (1 <<< ADIF) ≠ 0) :
    (mainLoop s).pulseticks = s.pulseticks := by
  simp only [mainLoop]
  rw [if_neg h]

theorem and_two_pow_ne_zero_iff (x k : Nat) : x &&& 2 ^ k ≠ 0 ↔ x.testBit k = true := by
  constructor
  · intro h
    obtain ⟨i, hi⟩ := Nat.ne_zero_implies_bit_true h
    rw [Nat.testBit_and, Nat.testBit_two_pow, Bool.and_eq_true, decide_eq_true_eq] at hi
    rw [hi.2]; exact hi.1
  · intro h h0
    have h1 : (x &&& 2 ^ k).testBit k = true := by
      rw [Nat.testBit_and, Nat.testBit_two_pow_self, h]; rfl
    rw [h0, Nat.zero_testBit] at h1
    exact Bool.false_ne_true h1

theorem adcComplete_flag (s : State) (lo hi : Nat) :
    (adcComplete s lo hi).ADCSRA &&& (1 <<< ADIF) ≠ 0 := by
  have h : (1 : Nat) <<< ADIF = 2 ^ 4 := by decide
  rw [h, and_two_pow_ne_zero_iff]
  simp only [adcComplete, h, Nat.testBit_or, Nat.testBit_two_pow_self, Bool.or_true]

theorem isrINT0_pulseticks (s : State) : (isrINT0 s).pulseticks = s.pulseticks := rfl

theorem isrTIM0_OVF_pulseticks (s : State) : (isrTIM0_OVF s).pulseticks = s.pulseticks := by
  unfold isrTIM0_OVF
  split <;> rfl

theorem timerCount_pulseticks (s : State) : (timerCount s).pulseticks = s.pulseticks := by
  unfold timerCount
  split <;> rfl

theorem ovfDispatch_pulseticks (s : State) : (ovfDispatch s).pulseticks = s.pulseticks := by
  unfold ovfDispatch
  split
  · rw [isrTIM0_OVF_pulseticks]
  · rfl

theorem timerTick_pulseticks (s : State) : (timerTick s).pulseticks = s.pulseticks := by
  unfold timerTick
  rw [ovfDispatch_pulseticks, timerCount_pulseticks]

theorem mainInit_pulseticks (s : State) : (mainInit s).pulseticks = s.pulseticks := rfl

theorem mainLoop_pulseValues (s : State) (h : s.pulseticks ∈ pulseValues) :
    (mainLoop s).pulseticks ∈ pulseValues := by
  by_cases hf : s.ADCSRA &&& (1 <<< ADIF) ≠ 0
  · rw [mainLoop_pulseticks_of_flag s hf]
    have hlt := calibIndex_lt s.ADCL s.ADCH
    generalize calibIndex s.ADCL s.ADCH = i at hlt
    interval_cases i <;> decide
  · rw [mainLoop_pulseticks_of_not_flag s hf]; exact h

theorem step_pulseValues (s : State) (e : Event) (h : s.pulseticks ∈ pulseValues) :
    (step s e).pulseticks ∈ pulseValues := by
  cases e with
  | edge => exact h
  | ovf => simpa only [step, isrTIM0_OVF_pulseticks] using h
  | wdt => exact h
  | main => exact mainLoop_pulseValues s h
  | adc lo hi => exact h
  | tick => simpa only [step, timerTick_pulseticks] using h

theorem run_pulseValues (evs : List Event) :
    ∀ s : State, s.pulseticks ∈ pulseValues → (run s evs).pulseticks ∈ pulseValues := by
  induction evs with
  | nil => intro s h; exact h
  | cons e es ih => intro s h; exact ih (step s e) (step_pulseValues s e h)

theorem pulseValues_encode (p : Nat) (h : p ∈ pulseValues) : (256 - p) % 256 ∈ ticktable := by
  simp only [pulseValues, List.mem_cons, List.mem_singleton, List.not_mem_nil, or_false] at h
  rcases h with h | h | h | h | h | h | h | h <;> subst h <;> decide

/-! ## Calibration and the tick table: C1, C7, C8, C9, C10 -/

/-- C1: for every table index `i < 8` and every pair of ADC data registers whose
combined value `av = (ADCH<<8)|ADCL` has `(av >> 7) & 7 = i`, one main-loop
iteration with the conversion-complete flag set leaves
`pulseticks = (256 - ticktable[i]) mod 256`, and an 8-bit up-counter loaded
with that value wraps from 255 to 0 for the first time on exactly the
`ticktable[i]`-th tick: among the ticks `1 .. ticktable[i]` the wrapping one is
the last. -/
theorem calibration_countdown (s : State) (i : Nat) (hi : i < 8)
    (hl : s.ADCL < 256) (hh : s.ADCH < 256)
    (hflag : s.ADCSRA &&& (1 <<< ADIF) ≠ 0)
    (hidx : (((s.ADCH <<< 8) ||| s.ADCL) >>> 7) &&& 7 = i) :
    (mainLoop s).pulseticks = (256 - ticktable.getD i 0) % 256 ∧
    ∀ j, j < ticktable.getD i 0 →
      (tcntWraps (tcntAfter (mainLoop s).pulseticks j) = true ↔ j + 1 = ticktable.getD i 0) := by
  have hp : (mainLoop s).pulseticks = (256 - ticktable.getD i 0) % 256 := by
    rw [mainLoop_pulseticks_of_flag s hflag, calibIndex_eq _ _ hl hh, hidx]
  refine ⟨hp, fun j hj => ?_⟩
  rw [hp]
  have hb := ticktable_getD_pos i hi
  exact first_wrap _ j hb.1 (by omega) hj

/-- Instance of C1: a conversion result of 0x200 (index 4) after
initialisation. -/
theorem calibration_countdown_witness :
    (mainLoop (adcComplete (mainInit powerOn) 0 2)).pulseticks = (256 - ticktable.getD 4 0) % 256 ∧
    ∀ j, j < ticktable.getD 4 0 →
      (tcntWraps (tcntAfter (mainLoop (adcComplete (mainInit powerOn) 0 2)).pulseticks j) = true
        ↔ j + 1 = ticktable.getD 4 0) :=
  calibration_countdown (adcComplete (mainInit powerOn) 0 2) 4 (by decide) (by decide)
    (by decide) (by decide) (by decide)

/-- C7: in every state reachable from power-on, where `pulseticks` has its
initialiser `256-6`, through the initialisation and any sequence of events
(handler runs, main-loop iterations, ADC results, timer ticks), `pulseticks`
is one of 255, 254, 253, 250, 244, 232, 209, 162, and the countdown length it
encodes, `(256 - pulseticks) mod 256`, is an entry of the tick table. The same
holds before and right after the initialisation. -/
theorem pulseticks_invariant (s0 : State) (evs : List Event)
    (h0 : s0.pulseticks = (256 - 6) % 256) :
    (run (mainInit s0) evs).pulseticks ∈ [255, 254, 253, 250, 244, 232, 209, 162] ∧
    (256 - (run (mainInit s0) evs).pulseticks) % 256 ∈ ticktable ∧
    (256 - s0.pulseticks) % 256 ∈ ticktable := by
  have hs : (mainInit s0).pulseticks ∈ pulseValues := by
    rw [mainInit_pulseticks, h0]; decide
  have hr := run_pulseValues evs (mainInit s0) hs
  refine ⟨hr, pulseValues_encode _ hr, ?_⟩
  rw [h0]; decide

/-- Instance of C7: power-on, initialisation, a conversion result of 0x3ff
consumed by the main loop, then an edge. -/
theorem pulseticks_invariant_witness :
    (run (mainInit powerOn) [.adc 255 3, .main, .edge]).pulseticks
      ∈ [255, 254, 253, 250, 244, 232, 209, 162] ∧
    (256 - (run (mainInit powerOn) [.adc 255 3, .main, .edge]).pulseticks) % 256 ∈ ticktable ∧
    (256 - powerOn.pulseticks) % 256 ∈ ticktable :=
  pulseticks_invariant powerOn [.adc 255 3, .main, .edge] (by decide)

/-- C8: for every 10-bit sample `v` (`0 <= v <= 1023`) presented as
`ADCL = v mod 256`, `ADCH = v / 256` with the conversion-complete flag set, the
calibration step computes the table index `(v >> 7) & 7`, which equals
`v / 128`, and stores `256 - ticktable[v / 128]`; and for every value of `av`
whatsoever the index `(av >> 7) & 7` is below 8, so the index the code
computes from any register contents is within the 8-entry table. -/
theorem index_extraction (s : State) (v : Nat) (hv : v ≤ 1023)
    (hflag : s.ADCSRA &&& (1 <<< ADIF) ≠ 0)
    (hl : s.ADCL = v % 256) (hh : s.ADCH = v / 256) :
    calibIndex s.ADCL s.ADCH = (v >>> 7) &&& 7 ∧
    (v >>> 7) &&& 7 = v / 128 ∧
    (mainLoop s).pulseticks = (256 - ticktable.getD (v / 128) 0) % 256 ∧
    (∀ av : Nat, (av >>> 7) &&& 7 < 8) ∧
    (∀ adcl adch : Nat, calibIndex adcl adch < ticktable.length) := by
  have h1 : calibIndex s.ADCL s.ADCH = v / 128 := by
    rw [hl, hh]; exact calibIndex_sample v hv
  have h2 : calibIndex s.ADCL s.ADCH = (v >>> 7) &&& 7 := by
    rw [hl, hh, calibIndex_eq _ _ (by omega) (by omega), combine_bytes]
  refine ⟨h2, ?_, ?_, ?_, ?_⟩
  · rw [← h2, h1]
  · rw [mainLoop_pulseticks_of_flag s hflag, h1]
  · intro av; exact Nat.lt_succ_of_le Nat.and_le_right
  · intro adcl adch; exact calibIndex_lt adcl adch

/-- Instance of C8: the sample 700 = 0x2bc selects index 5. -/
theorem index_extraction_witness :
    calibIndex (adcComplete (mainInit powerOn) 188 2).ADCL
        (adcComplete (mainInit powerOn) 188 2).ADCH = (700 >>> 7) &&& 7 ∧
    (700 >>> 7) &&& 7 = 700 / 128 ∧
    (mainLoop (adcComplete (mainInit powerOn) 188 2)).pulseticks
      = (256 - ticktable.getD (700 / 128) 0) % 256 ∧
    (∀ av : Nat, (av >>> 7) &&& 7 < 8) ∧
    (∀ adcl adch : Nat, calibIndex adcl adch < ticktable.length) :=
  index_extraction (adcComplete (mainInit powerOn) 188 2) 700 (by decide) (by decide)
    (by decide) (by decide)

theorem ticktable_mono (i j : Nat) (hij : i ≤ j) (hj : j < 8) :
    ticktable.getD i 0 ≤ ticktable.getD j 0 := by
  interval_cases j <;> interval_cases i <;> decide

/-- C9: the tick table is non-decreasing in the index, and hence for all
10-bit samples `v1 <= v2` the countdown length selected by `v1`
(`256 - pulseticks` after the conversion result `v1` is consumed by the main
loop) is at most the one selected by `v2`, whatever the two prior states. -/
theorem calibration_monotone :
    (∀ i j : Nat, i ≤ j → j < 8 → ticktable.getD i 0 ≤ ticktable.getD j 0) ∧
    (∀ (s1 s2 : State) (v1 v2 : Nat), v1 ≤ v2 → v2 ≤ 1023 →
      256 - (mainLoop (adcComplete s1 (v1 % 256) (v1 / 256))).pulseticks
        ≤ 256 - (mainLoop (adcComplete s2 (v2 % 256) (v2 / 256))).pulseticks) := by
  refine ⟨ticktable_mono, ?_⟩
  intro s1 s2 v1 v2 h12 h2
  have e1 : ∀ (s : State) (v : Nat), v ≤ 1023 →
      (mainLoop (adcComplete s (v % 256) (v / 256))).pulseticks
        = (256 - ticktable.getD (v / 128) 0) % 256 := by
    intro s v hv
    rw [mainLoop_pulseticks_of_flag _ (adcComplete_flag s _ _)]
    have hl : (adcComplete s (v % 256) (v / 256)).ADCL = v % 256 := by
      simp only [adcComplete]; omega
    have hh : (adcComplete s (v % 256) (v / 256)).ADCH = v / 256 := by
      simp only [adcComplete]; omega
    rw [hl, hh, calibIndex_sample v hv]
  rw [e1 s1 v1 (by omega), e1 s2 v2 h2]
  have hm := ticktable_mono (v1 / 128) (v2 / 128) (Nat.div_le_div_right h12) (by omega)
  have hb1 := ticktable_getD_pos (v1 / 128) (by omega)
  have hb2 := ticktable_getD_pos (v2 / 128) (by omega)
  omega

/-- Instance of C9: indices 2 and 6, samples 300 and 900 from different prior
states. -/
theorem calibration_monotone_witness :
    ticktable.getD 2 0 ≤ ticktable.getD 6 0 ∧
    256 - (mainLoop (adcComplete powerOn (300 % 256) (300 / 256))).pulseticks
      ≤ 256 - (mainLoop (adcComplete (mainInit powerOn) (900 % 256) (900 / 256))).pulseticks :=
  ⟨calibration_monotone.1 2 6 (by decide) (by decide),
   calibration_monotone.2 powerOn (mainInit powerOn) 300 900 (by decide) (by decide)⟩

theorem ticks_cover_iff (m b : Nat) (hb : 0 < b) :
    12 * bitSeconds b ≤ (m : ℚ) * tickSeconds ↔ 12 * F_CPU ≤ m * PRESCALE * b := by
  have hb' : (0 : ℚ) < (b : ℚ) := by exact_mod_cast hb
  have hf : (0 : ℚ) < (F_CPU : ℚ) := by norm_num [F_CPU]
  unfold bitSeconds tickSeconds
  rw [mul_one_div, ← mul_div_assoc, div_le_div_iff₀ hb' hf]
  constructor
  · intro h; exact_mod_cast h
  · intro h; exact_mod_cast h

/-- C10: one tick lasts exactly 1024 / 9600000 s, and for each of the eight
bit rates `b_i` = 115200, 57600, 38400, 19200, 9600, 4800, 2400, 1200
(`i = 0..7`) the entry `ticktable[i]` is the least whole number of ticks lasting
at least 12 bit periods at `b_i`, that is
`ticktable[i] = ceil(12 * 9600000 / (1024 * b_i))`; the entries are exactly
1, 2, 3, 6, 12, 24, 47, 94. -/
theorem ticktable_numerics :
    tickSeconds = 1024 / 9600000 ∧
    ticktable = [1, 2, 3, 6, 12, 24, 47, 94] ∧
    ∀ i : Fin 8,
      12 * bitSeconds (bitrates.getD i 0) ≤ (ticktable.getD i 0 : ℚ) * tickSeconds ∧
      (∀ m : Nat, 12 * bitSeconds (bitrates.getD i 0) ≤ (m : ℚ) * tickSeconds →
        ticktable.getD i 0 ≤ m) ∧
      ticktable.getD i 0 = ⌈(12 * 9600000 : ℚ) / (1024 * (bitrates.getD i 0 : ℚ))⌉₊ := by
  refine ⟨by norm_num [tickSeconds, PRESCALE, F_CPU], rfl, ?_⟩
  intro i
  have hpos : 0 < bitrates.getD i 0 := by fin_cases i <;> decide
  refine ⟨?_, ?_, ?_⟩
  · rw [ticks_cover_iff _ _ hpos]
    fin_cases i <;> decide
  · intro m hm
    rw [ticks_cover_iff _ _ hpos] at hm
    fin_cases i <;> simp [bitrates, ticktable, F_CPU, PRESCALE] at hm ⊢ <;> omega
  · symm
    rw [Nat.ceil_eq_iff (by fin_cases i <;> decide)]
    fin_cases i <;> norm_num [bitrates, ticktable]

/-! ## Bits of `PORTB` -/

theorem testBit_one (j : Nat) : Nat.testBit 1 j = decide (j = 0) := by
  cases j with
  | zero => rfl
  | succ n => simp [Nat.testBit_succ]

theorem testBit_eight (j : Nat) : Nat.testBit 8 j = decide (j = 3) := by
  have h : (8 : Nat) = 2 ^ 3 := by norm_num
  rw [h, Nat.testBit_two_pow]
  simp only [eq_comm]

theorem testBit_cnot_eight (j : Nat) :
    Nat.testBit (cnot 0x08) j = (decide (j < 16) && !decide (j = 3)) := by
  rcases Nat.lt_or_ge j 16 with h | h
  · interval_cases j <;> rfl
  · have h2 : cnot 0x08 < 2 ^ j :=
      lt_of_lt_of_le (by decide) (Nat.pow_le_pow_right (by norm_num) h)
    rw [Nat.testBit_lt_two_pow h2]
    simp only [Bool.false_eq, Bool.and_eq_false_imp, decide_eq_true_eq]
    omega

theorem testBit_cnot_one (j : Nat) :
    Nat.testBit (cnot 0x01) j = (decide (j < 16) && !decide (j = 0)) := by
  rcases Nat.lt_or_ge j 16 with h | h
  · interval_cases j <;> rfl
  · have h2 : cnot 0x01 < 2 ^ j :=
      lt_of_lt_of_le (by decide) (Nat.pow_le_pow_right (by norm_num) h)
    rw [Nat.testBit_lt_two_pow h2]
    simp only [Bool.false_eq, Bool.and_eq_false_imp, decide_eq_true_eq]
    omega

theorem testBit_mod_256 (x j : Nat) : (x % 256).testBit j = (decide (j < 8) && x.testBit j) := by
  have h : (256 : Nat) = 2 ^ 8 := by norm_num
  rw [h, Nat.testBit_mod_two_pow]

/-- Bits of `PORTB` after line 65, `PORTB=(PORTB|0x01)&(~0x08)`. -/
theorem edge_port_testBit (p j : Nat) :
    (((p ||| 0x01) &&& cnot 0x08) % 256).testBit j
      = (decide (j < 8) && ((p.testBit j || decide (j = 0)) && !decide (j = 3))) := by
  rw [testBit_mod_256, Nat.testBit_and, Nat.testBit_or, testBit_one, testBit_cnot_eight]
  by_cases h : j < 8
  · have h' : j < 16 := by omega
    simp [h, h']
  · simp [h]

/-- Bits of `PORTB` after line 83, `PORTB&=(~0x01)`. -/
theorem ovf_driver_port_testBit (p j : Nat) :
    ((p &&& cnot 0x01) % 256).testBit j
      = (decide (j < 8) && (p.testBit j && !decide (j = 0))) := by
  rw [testBit_mod_256, Nat.testBit_and, testBit_cnot_one]
  by_cases h : j < 8
  · have h' : j < 16 := by omega
    simp [h, h']
  · simp [h]

/-- Bits of `PORTB` after line 87, `PORTB=(PORTB|0x08)`. -/
theorem ovf_led_port_testBit (p j : Nat) :
    ((p ||| 0x08) % 256).testBit j = (decide (j < 8) && (p.testBit j || decide (j = 3))) := by
  rw [testBit_mod_256, Nat.testBit_or, testBit_eight]

theorem and_one_ne_zero_iff (p : Nat) : p &&& 0x01 ≠ 0 ↔ p.testBit 0 = true :=
  and_two_pow_ne_zero_iff p 0

theorem and_two_ne_zero_iff (p : Nat) : p &&& 0x02 ≠ 0 ↔ p.testBit 1 = true :=
  and_two_pow_ne_zero_iff p 1

theorem isrTIM0_OVF_of_driver (s : State) (h : s.PORTB.testBit 0 = true) :
    isrTIM0_OVF s = { s with PORTB := (s.PORTB &&& cnot 0x01) % 256 } := by
  unfold isrTIM0_OVF
  rw [if_pos ((and_one_ne_zero_iff _).2 h)]

theorem isrTIM0_OVF_of_not_driver (s : State) (h : s.PORTB.testBit 0 = false) :
    isrTIM0_OVF s = { s with PORTB := (s.PORTB ||| 0x08) % 256, TIMSK0 := 0x00 } := by
  unfold isrTIM0_OVF
  rw [if_neg]
  intro hc
  rw [(and_one_ne_zero_iff _).1 hc] at h
  exact Bool.noConfusion h

/-! ## The edge handler and the output invariants: C2, C3 -/

theorem isrINT0_effect (s : State) :
    (isrINT0 s).PORTB.testBit 0 = true ∧ (isrINT0 s).PORTB.testBit 3 = false ∧
    (isrINT0 s).TCNT0 = s.pulseticks ∧ (isrINT0 s).TCCR0A = 0 ∧ (isrINT0 s).TCCR0B = 5 ∧
    (isrINT0 s).TIMSK0 = 0x02 ∧ (isrINT0 s).pulseticks = s.pulseticks := by
  refine ⟨?_, ?_, rfl, rfl, rfl, rfl, rfl⟩
  · show (((s.PORTB ||| 0x01) &&& cnot 0x08) % 256).testBit 0 = true
    rw [edge_port_testBit]; simp
  · show (((s.PORTB ||| 0x01) &&& cnot 0x08) % 256).testBit 3 = false
    rw [edge_port_testBit]; simp

theorem isrTIM0_OVF_driver_off (t : State) : (isrTIM0_OVF t).PORTB.testBit 0 = false := by
  cases hd : t.PORTB.testBit 0
  · rw [isrTIM0_OVF_of_not_driver t hd]
    show ((t.PORTB ||| 0x08) % 256).testBit 0 = false
    rw [ovf_led_port_testBit, hd]; simp
  · rw [isrTIM0_OVF_of_driver t hd]
    show ((t.PORTB &&& cnot 0x01) % 256).testBit 0 = false
    rw [ovf_driver_port_testBit]; simp

theorem timerCount_frame (s : State) :
    (timerCount s).PORTB = s.PORTB ∧ (timerCount s).TIMSK0 = s.TIMSK0 ∧
    (timerCount s).TCCR0A = s.TCCR0A ∧ (timerCount s).TCCR0B = s.TCCR0B := by
  unfold timerCount
  split <;> exact ⟨rfl, rfl, rfl, rfl⟩

/-- C2: for every machine state whatsoever, the falling-edge handler yields a
state with driver-enable asserted (`PORTB` bit 0 = 1), the LED asserted
(`PORTB` bit 3 = 0), `TCNT0` equal to the current `pulseticks`, the timer in
mode 0 with prescaler 1024 (`TCCR0A = 0`, `TCCR0B = 5`) and the overflow
interrupt enabled (`TIMSK0 = 0x02`), `pulseticks` itself unchanged; and for two
prior states with the same `pulseticks` these fields of the two results
coincide. -/
theorem edge_handler_unconditional :
    (∀ s : State,
      (isrINT0 s).PORTB.testBit 0 = true ∧ (isrINT0 s).PORTB.testBit 3 = false ∧
      (isrINT0 s).TCNT0 = s.pulseticks ∧ (isrINT0 s).TCCR0A = 0 ∧ (isrINT0 s).TCCR0B = 5 ∧
      (isrINT0 s).TIMSK0 = 0x02 ∧ (isrINT0 s).pulseticks = s.pulseticks) ∧
    (∀ s1 s2 : State, s1.pulseticks = s2.pulseticks →
      (isrINT0 s1).PORTB.testBit 0 = (isrINT0 s2).PORTB.testBit 0 ∧
      (isrINT0 s1).PORTB.testBit 3 = (isrINT0 s2).PORTB.testBit 3 ∧
      (isrINT0 s1).TCNT0 = (isrINT0 s2).TCNT0 ∧
      (isrINT0 s1).TCCR0A = (isrINT0 s2).TCCR0A ∧
      (isrINT0 s1).TCCR0B = (isrINT0 s2).TCCR0B ∧
      (isrINT0 s1).TIMSK0 = (isrINT0 s2).TIMSK0) := by
  have key := isrINT0_effect
  refine ⟨key, ?_⟩
  intro s1 s2 h
  obtain ⟨a1, a2, a3, a4, a5, a6, _⟩ := key s1
  obtain ⟨b1, b2, b3, b4, b5, b6, _⟩ := key s2
  refine ⟨by rw [a1, b1], by rw [a2, b2], by rw [a3, b3, h], by rw [a4, b4], by rw [a5, b5],
    by rw [a6, b6]⟩

/-- Instance of C2: an edge at power-on and an edge in the middle of the long
phase, with the same `pulseticks`. -/
theorem edge_handler_unconditional_witness :
    ((isrINT0 powerOn).PORTB.testBit 0 = true ∧ (isrINT0 powerOn).PORTB.testBit 3 = false ∧
      (isrINT0 powerOn).TCNT0 = powerOn.pulseticks ∧ (isrINT0 powerOn).TCCR0A = 0 ∧
      (isrINT0 powerOn).TCCR0B = 5 ∧ (isrINT0 powerOn).TIMSK0 = 0x02 ∧
      (isrINT0 powerOn).pulseticks = powerOn.pulseticks) ∧
    (isrINT0 powerOn).TCNT0
      = (isrINT0 (run (mainInit powerOn) [.edge, .tick, .tick, .tick, .tick, .tick, .tick,
          .tick])).TCNT0 :=
  ⟨edge_handler_unconditional.1 powerOn,
   (edge_handler_unconditional.2 powerOn
      (run (mainInit powerOn) [.edge, .tick, .tick, .tick, .tick, .tick, .tick, .tick])
      (by decide)).2.2.1⟩

/-- The main loop leaves the port and the timer registers alone. -/
theorem mainLoop_frame (s : State) :
    (mainLoop s).PORTB = s.PORTB ∧ (mainLoop s).TCCR0A = s.TCCR0A ∧
    (mainLoop s).TCCR0B = s.TCCR0B ∧ (mainLoop s).TCNT0 = s.TCNT0 ∧
    (mainLoop s).TIFR0 = s.TIFR0 ∧ (mainLoop s).TIMSK0 = s.TIMSK0 := by
  simp only [mainLoop]
  split <;> exact ⟨rfl, rfl, rfl, rfl, rfl, rfl⟩

theorem step_containment (s : State) (e : Event)
    (h : s.PORTB.testBit 0 = true → s.PORTB.testBit 3 = false) :
    (step s e).PORTB.testBit 0 = true → (step s e).PORTB.testBit 3 = false := by
  have hovf := isrTIM0_OVF_driver_off
  cases e with
  | edge => intro _; exact (isrINT0_effect s).2.1
  | ovf =>
    intro hd
    rw [show step s Event.ovf = isrTIM0_OVF s from rfl, hovf s] at hd
    exact Bool.noConfusion hd
  | wdt => exact h
  | main =>
    rw [show step s Event.main = mainLoop s from rfl, (mainLoop_frame s).1]; exact h
  | adc lo hi => exact h
  | tick =>
    show (ovfDispatch (timerCount s)).PORTB.testBit 0 = true →
      (ovfDispatch (timerCount s)).PORTB.testBit 3 = false
    have hp : (timerCount s).PORTB = s.PORTB := (timerCount_frame s).1
    unfold ovfDispatch
    split
    · intro hd
      rw [hovf] at hd
      exact Bool.noConfusion hd
    · rw [hp]; exact h

theorem run_containment (evs : List Event) :
    ∀ s : State, (s.PORTB.testBit 0 = true → s.PORTB.testBit 3 = false) →
      (run s evs).PORTB.testBit 0 = true → (run s evs).PORTB.testBit 3 = false := by
  induction evs with
  | nil => intro s h; exact h
  | cons e es ih => intro s h; exact ih (step s e) (step_containment s e h)

/-- C3: in every state reachable from a post-initialisation state
(`PORTB = 0x2e`) by any sequence of edge-handler runs, overflow-handler runs,
main-loop iterations (and watchdog wake-ups, ADC results and timer ticks),
whenever driver-enable is asserted (`PORTB` bit 0 = 1) the LED is asserted too
(`PORTB` bit 3 = 0). -/
theorem led_contains_driver (s0 : State) (evs : List Event) (h0 : s0.PORTB = 0x2e)
    (hd : (run s0 evs).PORTB.testBit 0 = true) :
    (run s0 evs).PORTB.testBit 3 = false := by
  refine run_containment evs s0 ?_ hd
  rw [h0]
  intro h
  exact absurd h (by decide)

/-- Instance of C3: initialisation, an edge, two ticks: the driver is on and
so is the LED. -/
theorem led_contains_driver_witness :
    (mainInit powerOn).PORTB = 0x2e ∧
    (run (mainInit powerOn) [.edge, .tick, .main, .tick]).PORTB.testBit 0 = true ∧
    (run (mainInit powerOn) [.edge, .tick, .main, .tick]).PORTB.testBit 3 = false :=
  ⟨by decide, by decide,
   led_contains_driver (mainInit powerOn) [.edge, .tick, .main, .tick] (by decide) (by decide)⟩

theorem isIdle_iff (s : State) :
    isIdle s = true ↔
      s.PORTB.testBit 0 = false ∧ s.PORTB.testBit 3 = true ∧ s.TIMSK0 = 0 := by
  simp [isIdle, driverOn, ledOn, and_assoc]

theorem phaseRank_congr (s t : State) (hp : s.PORTB = t.PORTB) (hm : s.TIMSK0 = t.TIMSK0) :
    phaseRank s = phaseRank t := by
  simp only [phaseRank, isIdle, driverOn, ledOn, hp, hm]

theorem phaseRank_le_two (s : State) : phaseRank s ≤ 2 := by
  unfold phaseRank
  split
  · exact le_refl 2
  · split <;> omega

theorem isIdle_of_phaseRank (s : State) (h : phaseRank s = 0) : isIdle s = true := by
  unfold phaseRank at h
  split at h
  · omega
  · split at h
    · assumption
    · omega

theorem isrTIM0_OVF_idle_of_not_driver (s : State) (hd : s.PORTB.testBit 0 = false) :
    isIdle (isrTIM0_OVF s) = true := by
  rw [isIdle_iff, isrTIM0_OVF_of_not_driver s hd]
  refine ⟨?_, ?_, rfl⟩
  · show ((s.PORTB ||| 0x08) % 256).testBit 0 = false
    rw [ovf_led_port_testBit, hd]; simp
  · show ((s.PORTB ||| 0x08) % 256).testBit 3 = true
    rw [ovf_led_port_testBit]; simp

/-- A run of the overflow handler takes the machine one phase closer to idle. -/
theorem isrTIM0_OVF_phaseRank (s : State) : phaseRank (isrTIM0_OVF s) ≤ phaseRank s - 1 := by
  cases hd : s.PORTB.testBit 0
  · have hi := isrTIM0_OVF_idle_of_not_driver s hd
    have h0 : phaseRank (isrTIM0_OVF s) = 0 := by
      have hoff := isrTIM0_OVF_driver_off s
      simp only [phaseRank, driverOn, hoff, hi, if_true, Bool.false_eq_true, if_false]
    omega
  · have h2 : phaseRank s = 2 := by
      simp only [phaseRank, driverOn, hd, if_true]
    have hoff := isrTIM0_OVF_driver_off s
    have h1 : phaseRank (isrTIM0_OVF s) ≤ 1 := by
      simp only [phaseRank, driverOn, hoff, Bool.false_eq_true, if_false]
      split <;> omega
    omega

theorem ovfDispatch_phaseRank (s : State) : phaseRank (ovfDispatch s) ≤ phaseRank s := by
  unfold ovfDispatch
  split
  · have hc : phaseRank { s with TIFR0 := (s.TIFR0 % 256) &&& 0xfd } = phaseRank s :=
      phaseRank_congr _ _ rfl rfl
    have h := isrTIM0_OVF_phaseRank { s with TIFR0 := (s.TIFR0 % 256) &&& 0xfd }
    rw [hc] at h
    omega
  · exact le_refl _

/-- No event other than an edge moves the machine away from idle. -/
theorem step_phaseRank (s : State) (e : Event) (he : e ≠ Event.edge) :
    phaseRank (step s e) ≤ phaseRank s - (if e = Event.ovf then 1 else 0) := by
  cases e with
  | edge => exact absurd rfl he
  | ovf => simpa [step] using isrTIM0_OVF_phaseRank s
  | wdt => simp [step, isrWDT]
  | main =>
    have h := mainLoop_frame s
    simp [step, phaseRank_congr (mainLoop s) s h.1 h.2.2.2.2.2]
  | adc lo hi => simp [step, phaseRank_congr (adcComplete s lo hi) s rfl rfl]
  | tick =>
    have h := timerCount_frame s
    have h2 := ovfDispatch_phaseRank (timerCount s)
    rw [phaseRank_congr (timerCount s) s h.1 h.2.1] at h2
    simpa [step, timerTick] using h2

theorem run_phaseRank (evs : List Event) :
    ∀ s : State, Event.edge ∉ evs →
      phaseRank (run s evs) ≤ phaseRank s - evs.count Event.ovf := by
  induction evs with
  | nil => intro s _; simp [run]
  | cons e es ih =>
    intro s hne
    have he : e ≠ Event.edge := fun h => hne (by simp [h])
    have hes : Event.edge ∉ es := fun h => hne (List.mem_cons_of_mem _ h)
    have h1 := step_phaseRank s e he
    have h2 := ih (step s e) hes
    show phaseRank (run (step s e) es) ≤ _
    rw [List.count_cons]
    by_cases hov : e = Event.ovf
    · subst hov
      simp only [if_true, beq_self_eq_true] at h1 ⊢
      omega
    · have hb : (e == Event.ovf) = false := by simpa using hov
      simp only [hov, if_false, hb, Bool.false_eq_true] at h1 ⊢
      omega

/-- Bare runs of the overflow handler: with no further falling edge, two of
them (one when the driver is already off) leave the machine idle, and idle is
kept by the overflow handler and by the main-loop step. -/
theorem idle_after_bare_runs :
    (∀ (s : State) (evs : List Event), Event.edge ∉ evs → 2 ≤ evs.count Event.ovf →
      (run s evs).PORTB.testBit 0 = false ∧ (run s evs).PORTB.testBit 3 = true ∧
      (run s evs).TIMSK0 = 0) ∧
    (∀ (s : State) (evs : List Event), s.PORTB.testBit 0 = false →
      Event.edge ∉ evs → 1 ≤ evs.count Event.ovf → isIdle (run s evs) = true) ∧
    (∀ s : State, isIdle s = true →
      isIdle (isrTIM0_OVF s) = true ∧ isIdle (mainLoop s) = true) := by
  refine ⟨?_, ?_, ?_⟩
  · intro s evs hne hc
    have h := run_phaseRank evs s hne
    have h2 := phaseRank_le_two s
    exact (isIdle_iff _).1 (isIdle_of_phaseRank _ (by omega))
  · intro s evs hd hne hc
    have h := run_phaseRank evs s hne
    have h1 : phaseRank s ≤ 1 := by
      simp only [phaseRank, driverOn, hd, Bool.false_eq_true, if_false]
      split <;> omega
    exact isIdle_of_phaseRank _ (by omega)
  · intro s hi
    have hd := ((isIdle_iff s).1 hi).1
    refine ⟨isrTIM0_OVF_idle_of_not_driver s hd, ?_⟩
    have h := mainLoop_frame s
    rw [isIdle_iff] at hi ⊢
    rw [h.1, h.2.2.2.2.2]
    exact hi

/-! ## Timing after an edge: C5 -/

theorem ovfPending_of_flag_clear (s : State) (h : s.TIFR0.testBit 1 = false) :
    ovfPending s = false := by
  have h0 : s.TIFR0 &&& 0x02 = 0 := by
    by_contra hc
    rw [(and_two_ne_zero_iff _).1 hc] at h
    exact Bool.noConfusion h
  simp only [ovfPending, h0, bne_self_eq_false, Bool.false_and]

theorem ovfPending_of_disabled (s : State) (h : s.TIMSK0 = 0) : ovfPending s = false := by
  simp only [ovfPending, h, Nat.zero_and, bne_self_eq_false, Bool.and_false]

theorem ovfPending_of_flag_enabled (s : State) (hf : s.TIFR0.testBit 1 = true)
    (he : s.TIMSK0 = 2) : ovfPending s = true := by
  have h0 : s.TIFR0 &&& 0x02 ≠ 0 := (and_two_ne_zero_iff _).2 hf
  simp only [ovfPending, he, Bool.and_eq_true, bne_iff_ne, ne_eq]
  exact ⟨h0, by decide⟩

theorem timerCount_of_counting (s : State) (ha : s.TCCR0A = 0) (hb : s.TCCR0B = 5) :
    timerCount s =
      { s with TCNT0 := tcntNext s.TCNT0,
               TIFR0 := if tcntWraps s.TCNT0 then (s.TIFR0 ||| 0x02) % 256 else s.TIFR0 } := by
  have hc : timerCounting s = true := by simp [timerCounting, ha, hb]
  unfold timerCount
  rw [if_pos hc]

/-- A tick that does not wrap the running counter only advances it. -/
theorem timerTick_no_wrap (s : State) (ha : s.TCCR0A = 0) (hb : s.TCCR0B = 5)
    (hc : s.TCNT0 < 255) (hf : s.TIFR0.testBit 1 = false) :
    timerTick s = { s with TCNT0 := s.TCNT0 + 1 } ∧ ovfPending (timerCount s) = false := by
  have hw : tcntWraps s.TCNT0 = false := by
    rw [Bool.eq_false_iff, Ne, tcntWraps_iff]; omega
  have hn : tcntNext s.TCNT0 = s.TCNT0 + 1 := by
    unfold tcntNext; omega
  have e : timerCount s = { s with TCNT0 := s.TCNT0 + 1 } := by
    rw [timerCount_of_counting s ha hb, hw, hn]; rfl
  have hp : ovfPending (timerCount s) = false := by
    rw [e]; exact ovfPending_of_flag_clear _ hf
  refine ⟨?_, hp⟩
  unfold timerTick ovfDispatch
  rw [hp, e]; rfl

/-- A tick that wraps the running counter with the overflow interrupt enabled
runs the overflow handler. -/
theorem timerTick_wrap (s : State) (ha : s.TCCR0A = 0) (hb : s.TCCR0B = 5)
    (hc : s.TCNT0 = 255) (he : s.TIMSK0 = 2) :
    timerTick s =
      isrTIM0_OVF { s with TCNT0 := 0,
                           TIFR0 := (((s.TIFR0 ||| 0x02) % 256) % 256) &&& 0xfd } ∧
    ovfPending (timerCount s) = true := by
  have hw : tcntWraps s.TCNT0 = true := by
    rw [tcntWraps_iff]; omega
  have hn : tcntNext s.TCNT0 = 0 := by
    unfold tcntNext; omega
  have e : timerCount s = { s with TCNT0 := 0, TIFR0 := (s.TIFR0 ||| 0x02) % 256 } := by
    rw [timerCount_of_counting s ha hb, hw, hn]; rfl
  have hp : ovfPending (timerCount s) = true := by
    rw [e]
    refine ovfPending_of_flag_enabled _ ?_ he
    show ((s.TIFR0 ||| 0x02) % 256).testBit 1 = true
    rw [testBit_mod_256, Nat.testBit_or, show Nat.testBit 2 1 = true from rfl]
    simp
  refine ⟨?_, hp⟩
  unfold timerTick ovfDispatch
  rw [hp, e]; rfl

/-- With the overflow interrupt disabled a tick leaves the outputs alone. -/
theorem timerTick_disabled (s : State) (he : s.TIMSK0 = 0) :
    (timerTick s).PORTB = s.PORTB ∧ (timerTick s).TIMSK0 = s.TIMSK0 ∧
    (timerTick s).TCCR0A = s.TCCR0A ∧ (timerTick s).TCCR0B = s.TCCR0B ∧
    ovfPending (timerCount s) = false := by
  have hf := timerCount_frame s
  have hp : ovfPending (timerCount s) = false :=
    ovfPending_of_disabled _ (by rw [hf.2.1, he])
  unfold timerTick ovfDispatch
  rw [hp]
  exact ⟨hf.1, hf.2.1, hf.2.2.1, hf.2.2.2, rfl⟩

theorem afterEdge_congr (n t : Nat) (s s' : State) (h : afterEdge n t s)
    (hp : s'.PORTB = s.PORTB) (ha : s'.TCCR0A = s.TCCR0A) (hb : s'.TCCR0B = s.TCCR0B)
    (hc : s'.TCNT0 = s.TCNT0) (hf : s'.TIFR0 = s.TIFR0) (hm : s'.TIMSK0 = s.TIMSK0) :
    afterEdge n t s' := by
  unfold afterEdge at h ⊢
  rw [hp, ha, hb, hc, hf, hm]
  exact h

/-- The edge handler starts the short phase, whatever the prior state. -/
theorem afterEdge_isrINT0 (s : State) (hp : s.pulseticks < 256) :
    afterEdge (256 - s.pulseticks) 0 (isrINT0 s) := by
  obtain ⟨h0, h3, hc, ha, hb, hm, _⟩ := isrINT0_effect s
  refine ⟨ha, hb, ?_, ?_, ?_⟩
  · intro _
    refine ⟨h0, h3, hm, ?_, ?_⟩
    · rw [hc]; omega
    · show (writeTIFR0 s.TIFR0 0x02).testBit 1 = false
      simp only [writeTIFR0, writeFlagReg, Nat.testBit_or, Nat.testBit_and]
      rw [show Nat.testBit (255 - 2 % 256) 1 = false from rfl,
        show Nat.testBit (2 % 256) 1 = true from rfl,
        show Nat.testBit (255 - 14) 1 = false from rfl]
      simp
  · intro h; omega
  · intro h; omega

/-- One timer tick advances the phases after an edge by one tick; the overflow
handler runs on the tick that ends the short phase and on the tick that ends
the long phase, and on no other. -/
theorem afterEdge_tick (n t : Nat) (s : State) (hn : 0 < n) (hn' : n ≤ 256)
    (h : afterEdge n t s) :
    afterEdge n (t + 1) (timerTick s) ∧
    (ovfPending (timerCount s) = true ↔ (t + 1 = n ∨ t + 1 = n + 256)) := by
  obtain ⟨ha, hb, h1, h2, h3⟩ := h
  have hcases : t + 1 < n ∨ t + 1 = n ∨ (n ≤ t ∧ t + 1 < n + 256) ∨ t + 1 = n + 256
      ∨ n + 256 ≤ t := by omega
  rcases hcases with hA | hB | hC | hD | hE
  · obtain ⟨p0, p3, pm, pc, pf⟩ := h1 (by omega)
    obtain ⟨e, hp⟩ := timerTick_no_wrap s ha hb (by omega) pf
    refine ⟨?_, ?_⟩
    · rw [e]
      refine ⟨ha, hb, ?_, ?_, ?_⟩
      · intro _
        refine ⟨p0, p3, pm, ?_, pf⟩
        show s.TCNT0 + 1 = 256 - n + (t + 1)
        omega
      · intro h; omega
      · intro h; omega
    · rw [hp]
      constructor
      · intro h; exact Bool.noConfusion h
      · intro h; omega
  · obtain ⟨p0, p3, pm, pc, pf⟩ := h1 (by omega)
    obtain ⟨e, hp⟩ := timerTick_wrap s ha hb (by omega) pm
    refine ⟨?_, ?_⟩
    · have p0' : ({ s with TCNT0 := 0,
                           TIFR0 := (((s.TIFR0 ||| 0x02) % 256) % 256) &&& 0xfd }
          : State).PORTB.testBit 0 = true := p0
      rw [e, isrTIM0_OVF_of_driver _ p0']
      refine ⟨ha, hb, ?_, ?_, ?_⟩
      · intro h; omega
      · intro _ _
        refine ⟨?_, ?_, pm, ?_, ?_⟩
        · show ((s.PORTB &&& cnot 0x01) % 256).testBit 0 = false
          rw [ovf_driver_port_testBit]; simp
        · show ((s.PORTB &&& cnot 0x01) % 256).testBit 3 = false
          rw [ovf_driver_port_testBit, p3]; simp
        · show 0 = t + 1 - n
          omega
        · show ((((s.TIFR0 ||| 0x02) % 256) % 256) &&& 0xfd).testBit 1 = false
          rw [Nat.testBit_and, show Nat.testBit 0xfd 1 = false from rfl]
          simp
      · intro h; omega
    · rw [hp]
      constructor
      · intro _; exact Or.inl hB
      · intro _; rfl
  · obtain ⟨p0, p3, pm, pc, pf⟩ := h2 hC.1 (by omega)
    obtain ⟨e, hp⟩ := timerTick_no_wrap s ha hb (by omega) pf
    refine ⟨?_, ?_⟩
    · rw [e]
      refine ⟨ha, hb, ?_, ?_, ?_⟩
      · intro h; omega
      · intro _ _
        refine ⟨p0, p3, pm, ?_, pf⟩
        show s.TCNT0 + 1 = t + 1 - n
        omega
      · intro h; omega
    · rw [hp]
      constructor
      · intro h; exact Bool.noConfusion h
      · intro h; omega
  · obtain ⟨p0, p3, pm, pc, pf⟩ := h2 (by omega) (by omega)
    obtain ⟨e, hp⟩ := timerTick_wrap s ha hb (by omega) pm
    refine ⟨?_, ?_⟩
    · have p0' : ({ s with TCNT0 := 0,
                           TIFR0 := (((s.TIFR0 ||| 0x02) % 256) % 256) &&& 0xfd }
          : State).PORTB.testBit 0 = false := p0
      rw [e, isrTIM0_OVF_of_not_driver _ p0']
      refine ⟨ha, hb, ?_, ?_, ?_⟩
      · intro h; omega
      · intro _ h; omega
      · intro _
        refine ⟨?_, ?_, rfl⟩
        · show ((s.PORTB ||| 0x08) % 256).testBit 0 = false
          rw [ovf_led_port_testBit, p0]; simp
        · show ((s.PORTB ||| 0x08) % 256).testBit 3 = true
          rw [ovf_led_port_testBit]; simp
    · rw [hp]
      constructor
      · intro _; exact Or.inr hD
      · intro _; rfl
  · obtain ⟨p0, p3, pm⟩ := h3 hE
    obtain ⟨f1, f2, f3, f4, hp⟩ := timerTick_disabled s pm
    refine ⟨?_, ?_⟩
    · refine ⟨by rw [f3, ha], by rw [f4, hb], ?_, ?_, ?_⟩
      · intro h; omega
      · intro _ h; omega
      · intro _
        rw [f1, f2]
        exact ⟨p0, p3, pm⟩
    · rw [hp]
      constructor
      · intro h; exact Bool.noConfusion h
      · intro h; omega

theorem run_append (l1 l2 : List Event) : ∀ s : State,
    run s (l1 ++ l2) = run (run s l1) l2 := by
  induction l1 with
  | nil => intro s; rfl
  | cons e es ih => intro s; exact ih (step s e)

theorem trace_append (l1 l2 : List Event) : ∀ s : State,
    trace s (l1 ++ l2) = trace s l1 ++ trace (run s l1) l2 := by
  induction l1 with
  | nil => intro s; rfl
  | cons e es ih =>
    intro s
    show step s e :: trace (step s e) (es ++ l2) = _
    rw [ih (step s e)]; rfl

theorem ovfRuns_append (l1 l2 : List Event) : ∀ s : State,
    ovfRuns s (l1 ++ l2) = ovfRuns s l1 + ovfRuns (run s l1) l2 := by
  induction l1 with
  | nil => intro s; simp [ovfRuns, run]
  | cons e es ih =>
    intro s
    show (if ovfTaken s e then 1 else 0) + ovfRuns (step s e) (es ++ l2) = _
    rw [ih (step s e)]
    simp only [ovfRuns, run]
    omega

theorem adcComplete_frame (s : State) (lo hi : Nat) :
    (adcComplete s lo hi).PORTB = s.PORTB ∧ (adcComplete s lo hi).TCCR0A = s.TCCR0A ∧
    (adcComplete s lo hi).TCCR0B = s.TCCR0B ∧ (adcComplete s lo hi).TCNT0 = s.TCNT0 ∧
    (adcComplete s lo hi).TIFR0 = s.TIFR0 ∧ (adcComplete s lo hi).TIMSK0 = s.TIMSK0 :=
  ⟨rfl, rfl, rfl, rfl, rfl, rfl⟩

theorem overflowsBy_succ (n t : Nat) :
    overflowsBy n (t + 1) = overflowsBy n t + (if t + 1 = n ∨ t + 1 = n + 256 then 1 else 0) := by
  unfold overflowsBy
  split_ifs <;> omega

/-- One event other than an edge or a bare handler run: the phases advance by
the ticks elapsed, and the overflow handler runs exactly at the two phase
ends. -/
theorem step_afterEdge (n t : Nat) (s : State) (e : Event) (hn : 0 < n) (hn' : n ≤ 256)
    (he : e ≠ Event.edge) (he' : e ≠ Event.ovf) (h : afterEdge n t s) :
    afterEdge n (t + countTicks [e]) (step s e) ∧
    (if ovfTaken s e then 1 else 0) + overflowsBy n t = overflowsBy n (t + countTicks [e]) := by
  cases e with
  | edge => exact absurd rfl he
  | ovf => exact absurd rfl he'
  | wdt => exact ⟨h, by simp [ovfTaken, countTicks]⟩
  | main =>
    obtain ⟨f1, f2, f3, f4, f5, f6⟩ := mainLoop_frame s
    exact ⟨afterEdge_congr n t s _ h f1 f2 f3 f4 f5 f6, by simp [ovfTaken, countTicks]⟩
  | adc lo hi =>
    obtain ⟨f1, f2, f3, f4, f5, f6⟩ := adcComplete_frame s lo hi
    exact ⟨afterEdge_congr n t s _ h f1 f2 f3 f4 f5 f6, by simp [ovfTaken, countTicks]⟩
  | tick =>
    obtain ⟨h1, h2⟩ := afterEdge_tick n t s hn hn' h
    have hc : countTicks [Event.tick] = 1 := rfl
    rw [hc]
    refine ⟨h1, ?_⟩
    rw [overflowsBy_succ n t]
    show (if ovfPending (timerCount s) = true then 1 else 0) + _ = _
    by_cases hp : ovfPending (timerCount s) = true
    · rw [if_pos hp, if_pos (h2.1 hp)]; omega
    · rw [if_neg hp, if_neg (fun hc => hp (h2.2 hc))]; omega

theorem countTicks_cons (e : Event) (es : List Event) :
    countTicks (e :: es) = countTicks [e] + countTicks es := by
  simp only [countTicks, List.count_cons, List.count_nil]
  omega

theorem undisturbed_cons (e : Event) (es : List Event) (h : undisturbed (e :: es)) :
    e ≠ Event.edge ∧ e ≠ Event.ovf ∧ undisturbed es := by
  obtain ⟨h1, h2⟩ := h
  refine ⟨fun hc => h1 (by simp [hc]), fun hc => h2 (by simp [hc]), ?_, ?_⟩
  · exact fun hc => h1 (List.mem_cons_of_mem _ hc)
  · exact fun hc => h2 (List.mem_cons_of_mem _ hc)

/-- Any sequence of events without an edge: the phases advance by the ticks it
contains, and the overflow handler has run as often as phases have ended. -/
theorem run_afterEdge (n : Nat) (hn : 0 < n) (hn' : n ≤ 256) (evs : List Event) :
    ∀ (t : Nat) (s : State), undisturbed evs → afterEdge n t s →
      afterEdge n (t + countTicks evs) (run s evs) ∧
      ovfRuns s evs + overflowsBy n t = overflowsBy n (t + countTicks evs) ∧
      ∀ st ∈ trace s evs, ∃ t', t' ≤ t + countTicks evs ∧ afterEdge n t' st := by
  induction evs with
  | nil =>
    intro t s _ h
    exact ⟨h, by simp [ovfRuns, countTicks], by simp [trace]⟩
  | cons e es ih =>
    intro t s hq h
    obtain ⟨he, he', hes⟩ := undisturbed_cons e es hq
    obtain ⟨h1, h2⟩ := step_afterEdge n t s e hn hn' he he' h
    obtain ⟨i1, i2, i3⟩ := ih (t + countTicks [e]) (step s e) hes h1
    rw [countTicks_cons, ← Nat.add_assoc]
    refine ⟨i1, ?_, ?_⟩
    · show (if ovfTaken s e then 1 else 0) + ovfRuns (step s e) es + _ = _
      omega
    · intro st hst
      rcases List.mem_cons.1 hst with hst | hst
      · exact ⟨t + countTicks [e], by omega, hst ▸ h1⟩
      · exact i3 st hst

theorem afterEdge_outputs (n t : Nat) (s : State) (h : afterEdge n t s) :
    (driverOn s = true ↔ t < n) ∧ (ledOn s = true ↔ t < n + 256) ∧
    (isIdle s = true ↔ n + 256 ≤ t) := by
  obtain ⟨_, _, h1, h2, h3⟩ := h
  have hcases : t < n ∨ (n ≤ t ∧ t < n + 256) ∨ n + 256 ≤ t := by omega
  rw [isIdle_iff]
  unfold driverOn ledOn
  rcases hcases with hA | hB | hC
  · obtain ⟨p0, p3, _⟩ := h1 hA
    rw [p0, p3]
    simp only [Bool.not_false, true_iff, Bool.true_eq_false, false_and, false_iff, not_le]
    exact ⟨hA, by omega, by omega⟩
  · obtain ⟨p0, p3, _⟩ := h2 hB.1 hB.2
    rw [p0, p3]
    simp only [Bool.not_false, true_iff, Bool.false_eq_true, false_iff, not_lt, true_and,
      false_and, not_le]
    exact ⟨hB.1, hB.2, hB.2⟩
  · obtain ⟨p0, p3, pm⟩ := h3 hC
    rw [p0, p3, pm]
    simp only [Bool.false_eq_true, false_iff, not_lt, Bool.not_true, true_and, true_iff]
    exact ⟨by omega, by omega, hC⟩

theorem step_pulseticks_of_ne_main (s : State) (e : Event) (he : e ≠ Event.main) :
    (step s e).pulseticks = s.pulseticks := by
  cases e with
  | edge => rfl
  | ovf => exact isrTIM0_OVF_pulseticks s
  | wdt => rfl
  | main => exact absurd rfl he
  | adc lo hi => rfl
  | tick => exact timerTick_pulseticks s

theorem run_pulseticks_of_no_main (evs : List Event) :
    ∀ s : State, Event.main ∉ evs → (run s evs).pulseticks = s.pulseticks := by
  induction evs with
  | nil => intro s _; rfl
  | cons e es ih =>
    intro s h
    have he : e ≠ Event.main := fun hc => h (by simp [hc])
    have hes : Event.main ∉ es := fun hc => h (List.mem_cons_of_mem _ hc)
    show (run (step s e) es).pulseticks = _
    rw [ih (step s e) hes, step_pulseticks_of_ne_main s e he]

theorem undisturbed_ticks (k : Nat) : undisturbed (ticks k) := by
  constructor <;> intro h <;> have h' := List.eq_of_mem_replicate h <;> exact Event.noConfusion h'

theorem countTicks_ticks (k : Nat) : countTicks (ticks k) = k := by
  simp [countTicks, ticks]

theorem main_not_mem_ticks (k : Nat) : Event.main ∉ ticks k := by
  intro h
  have h' := List.eq_of_mem_replicate h
  exact Event.noConfusion h'

theorem main_not_mem_edgeTrain (gaps : List Nat) : Event.main ∉ edgeTrain gaps := by
  induction gaps with
  | nil => simp [edgeTrain]
  | cons g gs ih =>
    intro h
    simp only [edgeTrain, List.mem_cons, List.mem_append] at h
    rcases h with h | h | h
    · exact Event.noConfusion h
    · exact main_not_mem_ticks g h
    · exact ih h

/-- An edge followed by fewer ticks than the countdown it loads: the driver is
on in every state passed through and the overflow handler does not run. -/
theorem edge_then_ticks (s : State) (k : Nat) (hp : s.pulseticks < 256)
    (hk : k < 256 - s.pulseticks) :
    (∀ st ∈ trace s (Event.edge :: ticks k), driverOn st = true) ∧
    ovfRuns s (Event.edge :: ticks k) = 0 ∧
    (run s (Event.edge :: ticks k)).pulseticks = s.pulseticks := by
  have ha := afterEdge_isrINT0 s hp
  obtain ⟨r1, r2, r3⟩ := run_afterEdge (256 - s.pulseticks) (by omega) (by omega) (ticks k) 0
    (isrINT0 s) (undisturbed_ticks k) ha
  rw [countTicks_ticks] at r1 r2 r3
  refine ⟨?_, ?_, ?_⟩
  · intro st hst
    rcases List.mem_cons.1 hst with hst | hst
    · rw [hst]
      exact (isrINT0_effect s).1
    · obtain ⟨t', ht', hst'⟩ := r3 st hst
      exact (afterEdge_outputs _ t' st hst').1.2 (by omega)
  · show (if ovfTaken s Event.edge then 1 else 0) + ovfRuns (isrINT0 s) (ticks k) = 0
    have h0 : overflowsBy (256 - s.pulseticks) 0 = 0 := by
      unfold overflowsBy; rw [if_pos (by omega)]
    have hk' : overflowsBy (256 - s.pulseticks) (0 + k) = 0 := by
      unfold overflowsBy; rw [if_pos (by omega)]
    simp only [ovfTaken, Bool.false_eq_true, if_false]
    omega
  · show (run (isrINT0 s) (ticks k)).pulseticks = _
    rw [run_pulseticks_of_no_main _ _ (main_not_mem_ticks k)]
    rfl

/-- A train of edges, each followed by fewer ticks than the countdown: the
driver is on throughout and the overflow handler never runs. -/
theorem edgeTrain_armed (gaps : List Nat) :
    ∀ s : State, s.pulseticks < 256 → (∀ g ∈ gaps, g < 256 - s.pulseticks) →
      (∀ st ∈ trace s (edgeTrain gaps), driverOn st = true) ∧
      ovfRuns s (edgeTrain gaps) = 0 ∧
      (run s (edgeTrain gaps)).pulseticks = s.pulseticks := by
  induction gaps with
  | nil => intro s _ _; exact ⟨by simp [edgeTrain, trace], rfl, rfl⟩
  | cons g gs ih =>
    intro s hp hg
    obtain ⟨a1, a2, a3⟩ := edge_then_ticks s g hp (hg g (by simp))
    have hp' : (run s (Event.edge :: ticks g)).pulseticks < 256 := by rw [a3]; exact hp
    obtain ⟨b1, b2, b3⟩ := ih (run s (Event.edge :: ticks g)) hp' (by
      intro g' hg'
      rw [a3]
      exact hg g' (List.mem_cons_of_mem _ hg'))
    have e : edgeTrain (g :: gs) = (Event.edge :: ticks g) ++ edgeTrain gs := rfl
    rw [e, trace_append, ovfRuns_append, run_append]
    refine ⟨?_, by omega, by rw [b3, a3]⟩
    intro st hst
    rcases List.mem_append.1 hst with hst | hst
    · exact a1 st hst
    · exact b1 st hst

/-- A train of edges with nothing but timer ticks in between, each edge fewer
than `n = 256 - pulseticks` ticks after the previous one: the driver is on
until `n - 1` ticks after the last edge, and the `n`-th tick runs the overflow
handler and turns it off. -/
theorem edgeTrain_retrigger (s : State) (gaps : List Nat) (hp : s.pulseticks < 256)
    (hg : ∀ g ∈ gaps, g < 256 - s.pulseticks) :
    (∀ st ∈ trace s (edgeTrain gaps ++ Event.edge :: ticks (256 - s.pulseticks - 1)),
      driverOn st = true) ∧
    ovfRuns s (edgeTrain gaps ++ Event.edge :: ticks (256 - s.pulseticks - 1)) = 0 ∧
    driverOn (run s (edgeTrain gaps ++ Event.edge :: ticks (256 - s.pulseticks))) = false ∧
    ovfRuns s (edgeTrain gaps ++ Event.edge :: ticks (256 - s.pulseticks)) = 1 := by
  obtain ⟨a1, a2, a3⟩ := edgeTrain_armed gaps s hp hg
  have hp' : (run s (edgeTrain gaps)).pulseticks < 256 := by rw [a3]; exact hp
  obtain ⟨b1, b2, _⟩ := edge_then_ticks (run s (edgeTrain gaps)) (256 - s.pulseticks - 1) hp'
    (by rw [a3]; omega)
  have ha := afterEdge_isrINT0 (run s (edgeTrain gaps)) hp'
  rw [a3] at ha
  obtain ⟨r1, r2, _⟩ := run_afterEdge (256 - s.pulseticks) (by omega) (by omega)
    (ticks (256 - s.pulseticks)) 0 _ (undisturbed_ticks _) ha
  rw [countTicks_ticks] at r1 r2
  refine ⟨?_, ?_, ?_, ?_⟩
  · intro st hst
    rw [trace_append] at hst
    rcases List.mem_append.1 hst with hst | hst
    · exact a1 st hst
    · exact b1 st hst
  · rw [ovfRuns_append, a2, b2]
  · rw [run_append]
    show driverOn (run (isrINT0 (run s (edgeTrain gaps))) (ticks (256 - s.pulseticks))) = false
    have h := (afterEdge_outputs _ _ _ r1).1
    rw [Bool.eq_false_iff]
    intro hc
    have := h.1 hc
    omega
  · rw [ovfRuns_append, a2]
    show 0 + ((if ovfTaken (run s (edgeTrain gaps)) Event.edge then 1 else 0)
      + ovfRuns (isrINT0 (run s (edgeTrain gaps))) (ticks (256 - s.pulseticks))) = 1
    have h0 : overflowsBy (256 - s.pulseticks) 0 = 0 := by
      unfold overflowsBy; rw [if_pos (by omega)]
    have h1 : overflowsBy (256 - s.pulseticks) (0 + (256 - s.pulseticks)) = 1 := by
      unfold overflowsBy; rw [if_neg (by omega), if_pos (by omega)]
    simp only [ovfTaken, Bool.false_eq_true, if_false]
    omega

/-- C5: for every calibration index `i < 8` and every prior state with
`pulseticks = 256 - ticktable[i]`: after a falling edge followed by no further
edge (only timer ticks, main-loop iterations, watchdog wake-ups and ADC
results), driver-enable is asserted exactly while fewer than `ticktable[i]`
ticks have elapsed, the LED exactly while fewer than `ticktable[i] + 256` ticks
have elapsed, and the machine is idle from then on; the overflow handler has
run 0 times during the first interval, once during the second and twice
afterwards, so the first overflow de-asserts the driver and the second, 256
ticks later for every `i`, the LED. -/
theorem single_edge_timing (i : Nat) (s : State) (evs : List Event) (hi : i < 8)
    (hp : s.pulseticks = (256 - ticktable.getD i 0) % 256) (hq : undisturbed evs) :
    (driverOn (run (isrINT0 s) evs) = true ↔ countTicks evs < ticktable.getD i 0) ∧
    (ledOn (run (isrINT0 s) evs) = true ↔ countTicks evs < ticktable.getD i 0 + 256) ∧
    (isIdle (run (isrINT0 s) evs) = true ↔ ticktable.getD i 0 + 256 ≤ countTicks evs) ∧
    ovfRuns (isrINT0 s) evs = overflowsBy (ticktable.getD i 0) (countTicks evs) := by
  have hb := ticktable_getD_pos i hi
  have hlt : s.pulseticks < 256 := by rw [hp]; exact Nat.mod_lt _ (by norm_num)
  have hn : 256 - s.pulseticks = ticktable.getD i 0 := by rw [hp]; omega
  have ha := afterEdge_isrINT0 s hlt
  rw [hn] at ha
  obtain ⟨r1, r2, _⟩ := run_afterEdge (ticktable.getD i 0) hb.1 (by omega) evs 0 (isrINT0 s) hq ha
  rw [Nat.zero_add] at r1 r2
  obtain ⟨o1, o2, o3⟩ := afterEdge_outputs _ _ _ r1
  refine ⟨o1, o2, o3, ?_⟩
  have h0 : overflowsBy (ticktable.getD i 0) 0 = 0 := by
    unfold overflowsBy; rw [if_pos hb.1]
  omega

set_option maxRecDepth 16000 in
/-- Instance of C5: calibration index 4 (12 ticks), a single edge: the driver
is on after 11 ticks and off after 12; the LED is on after 12 + 255 ticks and
off after 12 + 256, with main-loop iterations in between. -/
theorem single_edge_timing_witness :
    driverOn (run (isrINT0 (mainLoop (adcComplete (mainInit powerOn) 0 2))) (ticks 11)) = true ∧
    driverOn (run (isrINT0 (mainLoop (adcComplete (mainInit powerOn) 0 2))) (ticks 12)) = false ∧
    ledOn (run (isrINT0 (mainLoop (adcComplete (mainInit powerOn) 0 2)))
      (ticks 12 ++ Event.main :: ticks 255)) = true ∧
    isIdle (run (isrINT0 (mainLoop (adcComplete (mainInit powerOn) 0 2)))
      (ticks 12 ++ Event.main :: ticks 256)) = true :=
  ⟨(single_edge_timing 4 (mainLoop (adcComplete (mainInit powerOn) 0 2)) (ticks 11)
      (by decide) (by decide) (by decide)).1.2 (by decide),
   Bool.eq_false_iff.2 (fun h =>
     absurd ((single_edge_timing 4 (mainLoop (adcComplete (mainInit powerOn) 0 2)) (ticks 12)
       (by decide) (by decide) (by decide)).1.1 h) (by decide)),
   (single_edge_timing 4 (mainLoop (adcComplete (mainInit powerOn) 0 2))
      (ticks 12 ++ Event.main :: ticks 255)
      (by decide) (by decide) (by decide)).2.1.2 (by decide),
   (single_edge_timing 4 (mainLoop (adcComplete (mainInit powerOn) 0 2))
      (ticks 12 ++ Event.main :: ticks 256)
      (by decide) (by decide) (by decide)).2.2.1.2 (by decide)⟩

/-! ## The port after initialisation: C11, C17, C19 -/

theorem isrINT0_portValues (s : State) (h : s.PORTB ∈ portValues) :
    (isrINT0 s).PORTB = 0x27 := by
  show ((s.PORTB ||| 0x01) &&& cnot 0x08) % 256 = 0x27
  simp only [portValues, List.mem_cons, List.mem_singleton, List.not_mem_nil, or_false] at h
  rcases h with h | h | h <;> rw [h] <;> rfl

theorem isrTIM0_OVF_portValues (s : State) (h : s.PORTB ∈ portValues) :
    (isrTIM0_OVF s).PORTB ∈ portValues ∧ (s.PORTB = 0x2e → (isrTIM0_OVF s).PORTB = 0x2e) := by
  simp only [portValues, List.mem_cons, List.mem_singleton, List.not_mem_nil, or_false] at h
  rcases h with h | h | h
  · have hd : s.PORTB.testBit 0 = false := by rw [h]; rfl
    have e : (isrTIM0_OVF s).PORTB = 0x2e := by
      rw [isrTIM0_OVF_of_not_driver s hd]
      show (s.PORTB ||| 0x08) % 256 = 0x2e
      rw [h]; rfl
    exact ⟨by rw [e]; decide, fun _ => e⟩
  · have hd : s.PORTB.testBit 0 = true := by rw [h]; rfl
    have e : (isrTIM0_OVF s).PORTB = 0x26 := by
      rw [isrTIM0_OVF_of_driver s hd]
      show (s.PORTB &&& cnot 0x01) % 256 = 0x26
      rw [h]; rfl
    exact ⟨by rw [e]; decide, fun hc => by rw [h] at hc; exact absurd hc (by decide)⟩
  · have hd : s.PORTB.testBit 0 = false := by rw [h]; rfl
    have e : (isrTIM0_OVF s).PORTB = 0x2e := by
      rw [isrTIM0_OVF_of_not_driver s hd]
      show (s.PORTB ||| 0x08) % 256 = 0x2e
      rw [h]; rfl
    exact ⟨by rw [e]; decide, fun _ => e⟩

theorem ovfDispatch_portValues (s : State) (h : s.PORTB ∈ portValues) :
    (ovfDispatch s).PORTB ∈ portValues ∧ (s.PORTB = 0x2e → (ovfDispatch s).PORTB = 0x2e) := by
  unfold ovfDispatch
  split
  · exact isrTIM0_OVF_portValues { s with TIFR0 := (s.TIFR0 % 256) &&& 0xfd } h
  · exact ⟨h, fun hc => hc⟩

theorem step_portValues (s : State) (e : Event) (h : s.PORTB ∈ portValues) :
    (step s e).PORTB ∈ portValues ∧
    (e ≠ Event.edge → s.PORTB = 0x2e → (step s e).PORTB = 0x2e) := by
  cases e with
  | edge =>
    refine ⟨?_, fun hc => absurd rfl hc⟩
    rw [show step s Event.edge = isrINT0 s from rfl, isrINT0_portValues s h]; decide
  | ovf => exact ⟨(isrTIM0_OVF_portValues s h).1, fun _ => (isrTIM0_OVF_portValues s h).2⟩
  | wdt => exact ⟨h, fun _ hc => hc⟩
  | main =>
    rw [show step s Event.main = mainLoop s from rfl, (mainLoop_frame s).1]
    exact ⟨h, fun _ hc => hc⟩
  | adc lo hi => exact ⟨h, fun _ hc => hc⟩
  | tick =>
    have hf := (timerCount_frame s).1
    have h' := ovfDispatch_portValues (timerCount s) (by rw [hf]; exact h)
    exact ⟨h'.1, fun _ hc => h'.2 (by rw [hf]; exact hc)⟩

theorem run_portValues (evs : List Event) :
    ∀ s : State, s.PORTB ∈ portValues → (run s evs).PORTB ∈ portValues := by
  induction evs with
  | nil => intro s h; exact h
  | cons e es ih => intro s h; exact ih (step s e) (step_portValues s e h).1

theorem trace_port_idle (evs : List Event) :
    ∀ s : State, s.PORTB = 0x2e → Event.edge ∉ evs →
      ∀ st ∈ trace s evs, st.PORTB = 0x2e := by
  induction evs with
  | nil => intro s _ _ st hst; simp [trace] at hst
  | cons e es ih =>
    intro s h hne st hst
    have he : e ≠ Event.edge := fun hc => hne (by simp [hc])
    have hes : Event.edge ∉ es := fun hc => hne (List.mem_cons_of_mem _ hc)
    have h1 : (step s e).PORTB = 0x2e :=
      (step_portValues s e (by rw [h]; decide)).2 he h
    rcases List.mem_cons.1 hst with hst | hst
    · rw [hst]; exact h1
    · exact ih (step s e) h1 hes st hst

/-- C11: in every run from a post-initialisation state (`PORTB = 0x2e`) that
contains no falling-edge event (only timer ticks, watchdog wake-ups,
conversion completions, main-loop iterations, and even bare runs of the overflow
handler), `PORTB` stays 0x2e, so driver-enable and the LED are de-asserted in
the initial state and in every state of the run: `PORTB` bit 0 = 0 and bit
3 = 1. This holds whether or not the overflow interrupt starts disabled. -/
theorem no_edge_outputs_off (s0 : State) (evs : List Event) (h0 : s0.PORTB = 0x2e)
    (hne : Event.edge ∉ evs) :
    ∀ st ∈ s0 :: trace s0 evs,
      st.PORTB = 0x2e ∧ st.PORTB.testBit 0 = false ∧ st.PORTB.testBit 3 = true := by
  intro st hst
  have hp : st.PORTB = 0x2e := by
    rcases List.mem_cons.1 hst with hst | hst
    · rw [hst]; exact h0
    · exact trace_port_idle evs s0 h0 hne st hst
  rw [hp]
  exact ⟨rfl, rfl, rfl⟩

/-- Instance of C11: after initialisation, a conversion result, main-loop
iterations, watchdog wake-ups and ticks, with the overflow interrupt
disabled. -/
theorem no_edge_outputs_off_witness :
    (mainInit powerOn).TIMSK0 = 0 ∧
    ∀ st ∈ mainInit powerOn :: trace (mainInit powerOn)
        [.tick, .adc 255 3, .wdt, .main, .tick, .wdt, .main],
      st.PORTB = 0x2e ∧ st.PORTB.testBit 0 = false ∧ st.PORTB.testBit 3 = true :=
  ⟨by decide,
   no_edge_outputs_off (mainInit powerOn) [.tick, .adc 255 3, .wdt, .main, .tick, .wdt, .main]
     (by decide) (by decide)⟩

/-- C17: the values written at start-up, `DDRB = 0x09` and `PORTB = 0x2e`,
are bit for bit the `DDR` and `PORT` columns of the documented I/O table for
PB0 .. PB5 (PB0 output 0, PB1 and PB2 input with pull-up, PB3 output 1, PB4
input without pull-up, PB5 input with pull-up), with no higher bit set; so
right after initialisation driver-enable is de-asserted and the LED is off. -/
theorem initial_io_configuration (s : State) :
    (mainInit s).DDRB = 0x09 ∧ (mainInit s).PORTB = 0x2e ∧
    (∀ i : Fin 6,
      (mainInit s).DDRB.testBit i = (ioTable.getD i (false, false)).1 ∧
      (mainInit s).PORTB.testBit i = (ioTable.getD i (false, false)).2) ∧
    (mainInit s).DDRB < 2 ^ 6 ∧ (mainInit s).PORTB < 2 ^ 6 ∧
    driverOn (mainInit s) = false ∧ ledOn (mainInit s) = false := by
  have hd : (mainInit s).DDRB = 0x09 := rfl
  have hp : (mainInit s).PORTB = 0x2e := rfl
  refine ⟨hd, hp, ?_, ?_, ?_, ?_, ?_⟩
  · intro i
    rw [hd, hp]
    fin_cases i <;> exact ⟨rfl, rfl⟩
  · rw [hd]; decide
  · rw [hp]; decide
  · unfold driverOn; rw [hp]; rfl
  · unfold ledOn; rw [hp]; rfl

/-- C19: the edge handler and the overflow handler change no bit of `PORTB`
other than bit 0 (driver-enable) and bit 3 (LED); hence in every state
reachable from `PORTB = 0x2e` by any sequence of events the pull-up
configuration is kept, `PORTB & 0x36 = 0x26`: pull-ups on PB1, PB2, PB5
enabled, PB4 without pull-up. -/
theorem port_frame :
    (∀ (s : State) (j : Nat), j < 8 → j ≠ 0 → j ≠ 3 →
      (isrINT0 s).PORTB.testBit j = s.PORTB.testBit j ∧
      (isrTIM0_OVF s).PORTB.testBit j = s.PORTB.testBit j) ∧
    (∀ (s0 : State) (evs : List Event), s0.PORTB = 0x2e →
      (run s0 evs).PORTB &&& 0x36 = 0x26 ∧
      (run s0 evs).PORTB.testBit 1 = true ∧ (run s0 evs).PORTB.testBit 2 = true ∧
      (run s0 evs).PORTB.testBit 4 = false ∧ (run s0 evs).PORTB.testBit 5 = true) := by
  refine ⟨?_, ?_⟩
  · intro s j hj h0 h3
    refine ⟨?_, ?_⟩
    · show (((s.PORTB ||| 0x01) &&& cnot 0x08) % 256).testBit j = _
      rw [edge_port_testBit]; simp [hj, h0, h3]
    · cases hd : s.PORTB.testBit 0
      · rw [isrTIM0_OVF_of_not_driver s hd]
        show ((s.PORTB ||| 0x08) % 256).testBit j = _
        rw [ovf_led_port_testBit]; simp [hj, h3]
      · rw [isrTIM0_OVF_of_driver s hd]
        show ((s.PORTB &&& cnot 0x01) % 256).testBit j = _
        rw [ovf_driver_port_testBit]; simp [hj, h0]
  · intro s0 evs h0
    have h := run_portValues evs s0 (by rw [h0]; decide)
    simp only [portValues, List.mem_cons, List.mem_singleton, List.not_mem_nil, or_false] at h
    rcases h with h | h | h <;> rw [h] <;> exact ⟨rfl, rfl, rfl, rfl, rfl⟩

/-- Instance of C19: bit 5 across both handlers in the short phase, and the
pull-ups after an edge and one overflow. -/
theorem port_frame_witness :
    ((isrINT0 (isrINT0 (mainInit powerOn))).PORTB.testBit 5
        = (isrINT0 (mainInit powerOn)).PORTB.testBit 5 ∧
      (isrTIM0_OVF (isrINT0 (mainInit powerOn))).PORTB.testBit 5
        = (isrINT0 (mainInit powerOn)).PORTB.testBit 5) ∧
    (run (mainInit powerOn) [.edge, .ovf]).PORTB &&& 0x36 = 0x26 :=
  ⟨port_frame.1 (isrINT0 (mainInit powerOn)) 5 (by decide) (by decide) (by decide),
   (port_frame.2 (mainInit powerOn) [.edge, .ovf] (by decide)).1⟩

/-! ## Who writes what: C12, C14, C16 -/

/-- The main loop leaves the strobe register of the timer alone too. -/
theorem mainLoop_GTCCR (s : State) : (mainLoop s).GTCCR = s.GTCCR := by
  simp only [mainLoop]
  split <;> rfl

/-- With `ADIF` clear a main-loop iteration touches the watchdog only. -/
theorem mainLoop_of_not_flag (s : State) (h : s.ADCSRA &&& (1 <<< ADIF) = 0) :
    mainLoop s = { s with wdtcnt := 0, WDTCR := (s.WDTCR ||| 0x40) % 256 } := by
  simp only [mainLoop]
  rw [if_neg (by simpa using h)]

/-- With `ADIF` set a main-loop iteration also recalibrates and restarts the
converter. -/
theorem mainLoop_of_flag (s : State) (h : s.ADCSRA &&& (1 <<< ADIF) ≠ 0) :
    mainLoop s =
      { s with wdtcnt := 0, WDTCR := (s.WDTCR ||| 0x40) % 256,
               pulseticks := (256 - ticktable.getD (calibIndex s.ADCL s.ADCH) 0) % 256,
               ADCSRA := writeADCSRA s.ADCSRA
                 ((1 <<< ADEN) ||| (1 <<< ADSC) ||| (1 <<< ADIF) ||| 7) } := by
  simp only [mainLoop]
  rw [if_pos h]

theorem step_port_change (s : State) (e : Event) (h : (step s e).PORTB ≠ s.PORTB) :
    e = Event.edge ∨ ovfTaken s e = true := by
  cases e with
  | edge => exact Or.inl rfl
  | ovf => exact Or.inr rfl
  | wdt => exact absurd rfl h
  | main => exact absurd (mainLoop_frame s).1 h
  | adc lo hi => exact absurd rfl h
  | tick =>
    right
    show ovfPending (timerCount s) = true
    by_contra hc
    apply h
    show (ovfDispatch (timerCount s)).PORTB = s.PORTB
    unfold ovfDispatch
    rw [if_neg hc]
    exact (timerCount_frame s).1

/-- C12 fails as stated: when a completed conversion is waiting (`ADIF` set),
the main-loop iteration of a watchdog wake-up rewrites `pulseticks` (here from
250 to 162) and the ADC control register (here from 0x97 to 0xc7). -/
theorem watchdog_wake_recalibrates :
    (adcComplete (mainInit powerOn) 255 3).pulseticks = 250 ∧
    (watchdogWake (adcComplete (mainInit powerOn) 255 3)).pulseticks = 162 ∧
    (adcComplete (mainInit powerOn) 255 3).ADCSRA = 0x97 ∧
    (watchdogWake (adcComplete (mainInit powerOn) 255 3)).ADCSRA = 0xc7 := by
  decide

/-- C12, amended: for every state a watchdog wake-up (the handler, then the
main-loop iteration it wakes) leaves `PORTB` and the timer registers
unchanged; when the conversion-complete flag is clear it changes nothing but
the watchdog counter and control register, so `pulseticks` and the ADC
registers are the same before and after; when the flag is set, the
calibration poll in addition stores `256 - ticktable[index]` in `pulseticks`
and restarts the conversion through `ADCSRA`, and changes nothing else. -/
theorem watchdog_wake_frame :
    (∀ s : State,
      (watchdogWake s).PORTB = s.PORTB ∧ (watchdogWake s).TCCR0A = s.TCCR0A ∧
      (watchdogWake s).TCCR0B = s.TCCR0B ∧ (watchdogWake s).TCNT0 = s.TCNT0 ∧
      (watchdogWake s).TIFR0 = s.TIFR0 ∧ (watchdogWake s).TIMSK0 = s.TIMSK0 ∧
      (watchdogWake s).GTCCR = s.GTCCR) ∧
    (∀ s : State, s.ADCSRA &&& (1 <<< ADIF) = 0 →
      watchdogWake s = { s with wdtcnt := 0, WDTCR := (s.WDTCR ||| 0x40) % 256 } ∧
      (watchdogWake s).pulseticks = s.pulseticks ∧ (watchdogWake s).ADCSRA = s.ADCSRA) ∧
    (∀ s : State, s.ADCSRA &&& (1 <<< ADIF) ≠ 0 →
      watchdogWake s =
        { s with wdtcnt := 0, WDTCR := (s.WDTCR ||| 0x40) % 256,
                 pulseticks := (256 - ticktable.getD (calibIndex s.ADCL s.ADCH) 0) % 256,
                 ADCSRA := writeADCSRA s.ADCSRA
                   ((1 <<< ADEN) ||| (1 <<< ADSC) ||| (1 <<< ADIF) ||| 7) }) := by
  refine ⟨?_, ?_, ?_⟩
  · intro s
    obtain ⟨f1, f2, f3, f4, f5, f6⟩ := mainLoop_frame s
    exact ⟨f1, f2, f3, f4, f5, f6, mainLoop_GTCCR s⟩
  · intro s h
    have e : watchdogWake s = { s with wdtcnt := 0, WDTCR := (s.WDTCR ||| 0x40) % 256 } :=
      mainLoop_of_not_flag s h
    refine ⟨e, ?_, ?_⟩ <;> rw [e]
  · intro s h
    exact mainLoop_of_flag s h

/-- Instance of C12, amended: a wake-up right after initialisation (flag
clear), and one with a conversion result waiting. -/
theorem watchdog_wake_frame_witness :
    (watchdogWake (mainInit powerOn)).pulseticks = (mainInit powerOn).pulseticks ∧
    (watchdogWake (mainInit powerOn)).ADCSRA = (mainInit powerOn).ADCSRA ∧
    (watchdogWake (adcComplete (mainInit powerOn) 255 3)).PORTB
      = (adcComplete (mainInit powerOn) 255 3).PORTB :=
  ⟨(watchdog_wake_frame.2.1 (mainInit powerOn) (by decide)).2.1,
   (watchdog_wake_frame.2.1 (mainInit powerOn) (by decide)).2.2,
   (watchdog_wake_frame.1 (adcComplete (mainInit powerOn) 255 3)).1⟩

/-- C14: a main-loop iteration never changes `PORTB` or the timer registers
(`TCCR0A`, `TCCR0B`, `TCNT0`, `TIMSK0`, and `TIFR0`, `GTCCR`), so of the
state shared with the handlers it writes `pulseticks` only; none of the three
interrupt handlers changes `pulseticks`; hence an event that changes `PORTB`,
and with it driver-enable or the LED, is a falling edge or a run of the overflow
handler. -/
theorem single_writer :
    (∀ s : State,
      (mainLoop s).PORTB = s.PORTB ∧ (mainLoop s).TCCR0A = s.TCCR0A ∧
      (mainLoop s).TCCR0B = s.TCCR0B ∧ (mainLoop s).TCNT0 = s.TCNT0 ∧
      (mainLoop s).TIMSK0 = s.TIMSK0 ∧ (mainLoop s).TIFR0 = s.TIFR0 ∧
      (mainLoop s).GTCCR = s.GTCCR) ∧
    (∀ s : State,
      (isrINT0 s).pulseticks = s.pulseticks ∧ (isrTIM0_OVF s).pulseticks = s.pulseticks ∧
      (isrWDT s).pulseticks = s.pulseticks) ∧
    (∀ (s : State) (e : Event), (step s e).PORTB ≠ s.PORTB →
      e = Event.edge ∨ ovfTaken s e = true) := by
  refine ⟨?_, ?_, step_port_change⟩
  · intro s
    obtain ⟨f1, f2, f3, f4, f5, f6⟩ := mainLoop_frame s
    exact ⟨f1, f2, f3, f4, f6, f5, mainLoop_GTCCR s⟩
  · intro s
    exact ⟨rfl, isrTIM0_OVF_pulseticks s, rfl⟩

/-- Instance of C14: the edge is what changes the port after
initialisation. -/
theorem single_writer_witness :
    (mainLoop (adcComplete (mainInit powerOn) 255 3)).PORTB
      = (adcComplete (mainInit powerOn) 255 3).PORTB ∧
    (Event.edge = Event.edge ∨ ovfTaken (mainInit powerOn) Event.edge = true) :=
  ⟨(single_writer.1 (adcComplete (mainInit powerOn) 255 3)).1,
   single_writer.2.2 (mainInit powerOn) Event.edge (by decide)⟩

/-- C16: for every state the overflow handler does one of two things, decided
by the driver-enable bit. If `PORTB` bit 0 is set it clears bit 0 and nothing
else: the other seven bits of `PORTB`, the LED bit among them, and `TIMSK0`
are unchanged. Otherwise it sets `PORTB` bit 3 (LED off) and `TIMSK0 = 0`,
bit 0 stays clear and the other bits of `PORTB` are unchanged. In both cases
`pulseticks` is unchanged. -/
theorem overflow_two_phase (s : State) :
    (s.PORTB.testBit 0 = true →
      (isrTIM0_OVF s).PORTB.testBit 0 = false ∧
      (∀ j, j < 8 → j ≠ 0 → (isrTIM0_OVF s).PORTB.testBit j = s.PORTB.testBit j) ∧
      (isrTIM0_OVF s).TIMSK0 = s.TIMSK0) ∧
    (s.PORTB.testBit 0 = false →
      (isrTIM0_OVF s).PORTB.testBit 3 = true ∧ (isrTIM0_OVF s).TIMSK0 = 0 ∧
      (isrTIM0_OVF s).PORTB.testBit 0 = false ∧
      (∀ j, j < 8 → j ≠ 3 → (isrTIM0_OVF s).PORTB.testBit j = s.PORTB.testBit j)) ∧
    (isrTIM0_OVF s).pulseticks = s.pulseticks := by
  refine ⟨?_, ?_, isrTIM0_OVF_pulseticks s⟩
  · intro hd
    rw [isrTIM0_OVF_of_driver s hd]
    refine ⟨?_, ?_, rfl⟩
    · show ((s.PORTB &&& cnot 0x01) % 256).testBit 0 = false
      rw [ovf_driver_port_testBit]; simp
    · intro j hj h0
      show ((s.PORTB &&& cnot 0x01) % 256).testBit j = _
      rw [ovf_driver_port_testBit]; simp [hj, h0]
  · intro hd
    rw [isrTIM0_OVF_of_not_driver s hd]
    refine ⟨?_, rfl, ?_, ?_⟩
    · show ((s.PORTB ||| 0x08) % 256).testBit 3 = true
      rw [ovf_led_port_testBit]; simp
    · show ((s.PORTB ||| 0x08) % 256).testBit 0 = false
      rw [ovf_led_port_testBit, hd]; simp
    · intro j hj h3
      show ((s.PORTB ||| 0x08) % 256).testBit j = _
      rw [ovf_led_port_testBit]; simp [hj, h3]

/-- Instance of C16: the first overflow after an edge (short phase to long
phase) and the second (long phase to idle). -/
theorem overflow_two_phase_witness :
    ((isrTIM0_OVF (isrINT0 (mainInit powerOn))).PORTB.testBit 0 = false ∧
      (isrTIM0_OVF (isrINT0 (mainInit powerOn))).PORTB.testBit 3
        = (isrINT0 (mainInit powerOn)).PORTB.testBit 3 ∧
      (isrTIM0_OVF (isrINT0 (mainInit powerOn))).TIMSK0 = (isrINT0 (mainInit powerOn)).TIMSK0) ∧
    ((isrTIM0_OVF (isrTIM0_OVF (isrINT0 (mainInit powerOn)))).PORTB.testBit 3 = true ∧
      (isrTIM0_OVF (isrTIM0_OVF (isrINT0 (mainInit powerOn)))).TIMSK0 = 0) :=
  ⟨⟨((overflow_two_phase (isrINT0 (mainInit powerOn))).1 (by decide)).1,
    ((overflow_two_phase (isrINT0 (mainInit powerOn))).1 (by decide)).2.1 3 (by decide)
      (by decide),
    ((overflow_two_phase (isrINT0 (mainInit powerOn))).1 (by decide)).2.2⟩,
   ⟨((overflow_two_phase (isrTIM0_OVF (isrINT0 (mainInit powerOn)))).2.1 (by decide)).1,
    ((overflow_two_phase (isrTIM0_OVF (isrINT0 (mainInit powerOn)))).2.1 (by decide)).2.1⟩⟩

/-! ## Default and stale calibration: C13, C15 -/

/-- The window opened by an edge, for any 8-bit `pulseticks`: with
`n = 256 - pulseticks`, the driver is on exactly while fewer than `n` ticks
have elapsed and the LED exactly while fewer than `n + 256` have. -/
theorem edge_window (s : State) (evs : List Event) (hp : s.pulseticks < 256)
    (hq : undisturbed evs) :
    (driverOn (run (isrINT0 s) evs) = true ↔ countTicks evs < 256 - s.pulseticks) ∧
    (ledOn (run (isrINT0 s) evs) = true ↔ countTicks evs < 256 - s.pulseticks + 256) ∧
    (isIdle (run (isrINT0 s) evs) = true ↔ 256 - s.pulseticks + 256 ≤ countTicks evs) ∧
    ovfRuns (isrINT0 s) evs = overflowsBy (256 - s.pulseticks) (countTicks evs) := by
  have ha := afterEdge_isrINT0 s hp
  obtain ⟨r1, r2, _⟩ := run_afterEdge (256 - s.pulseticks) (by omega) (by omega) evs 0
    (isrINT0 s) hq ha
  rw [Nat.zero_add] at r1 r2
  obtain ⟨o1, o2, o3⟩ := afterEdge_outputs _ _ _ r1
  refine ⟨o1, o2, o3, ?_⟩
  have h0 : overflowsBy (256 - s.pulseticks) 0 = 0 := by
    unfold overflowsBy; rw [if_pos (by omega)]
  omega

/-- A conversion result `v` consumed by the main loop selects
`ticktable[v / 128]`. -/
theorem calibrate_sample (s : State) (v : Nat) (hv : v ≤ 1023) :
    (mainLoop (adcComplete s (v % 256) (v / 256))).pulseticks
      = (256 - ticktable.getD (v / 128) 0) % 256 := by
  rw [mainLoop_pulseticks_of_flag _ (adcComplete_flag s _ _)]
  have hl : (adcComplete s (v % 256) (v / 256)).ADCL = v % 256 := by
    simp only [adcComplete]; omega
  have hh : (adcComplete s (v % 256) (v / 256)).ADCH = v / 256 := by
    simp only [adcComplete]; omega
  rw [hl, hh, calibIndex_sample v hv]

theorem step_pulseticks_of_unseen (s : State) (e : Event)
    (h : (e != Event.main || s.ADCSRA &&& (1 <<< ADIF) == 0) = true) :
    (step s e).pulseticks = s.pulseticks := by
  by_cases he : e = Event.main
  · subst he
    have hf : s.ADCSRA &&& (1 <<< ADIF) = 0 := by simpa using h
    exact mainLoop_pulseticks_of_not_flag s (by simpa using hf)
  · exact step_pulseticks_of_ne_main s e he

theorem trace_pulseticks_of_unseen (evs : List Event) :
    ∀ s : State, adifUnseen s evs = true → ∀ st ∈ trace s evs, st.pulseticks = s.pulseticks := by
  induction evs with
  | nil => intro s _ st hst; simp [trace] at hst
  | cons e es ih =>
    intro s h st hst
    simp only [adifUnseen, Bool.and_eq_true] at h
    have h1 := step_pulseticks_of_unseen s e h.1
    rcases List.mem_cons.1 hst with hst | hst
    · rw [hst]; exact h1
    · rw [ih (step s e) h.2 st hst, h1]

/-- Writing the start-conversion value clears `ADIF`. -/
theorem writeADCSRA_start_flag (old : Nat) :
    writeADCSRA old ((1 <<< ADEN) ||| (1 <<< ADSC) ||| (1 <<< ADIF) ||| 7) &&& (1 <<< ADIF)
      = 0 := by
  have h4 : (1 : Nat) <<< ADIF = 2 ^ 4 := by decide
  have hv : (1 <<< ADEN) ||| (1 <<< ADSC) ||| (1 <<< ADIF) ||| 7 = 215 := by decide
  rw [hv, h4]
  by_contra hc
  have hc := (and_two_pow_ne_zero_iff _ 4).1 hc
  simp only [writeADCSRA, writeFlagReg, h4, Nat.testBit_or, Nat.testBit_and] at hc
  rw [show Nat.testBit (215 % 256) 4 = true from rfl,
    show Nat.testBit (255 - 2 ^ 4) 4 = false from rfl,
    show Nat.testBit (255 - 215 % 256) 4 = false from rfl] at hc
  simp at hc

theorem mainInit_flag_clear (s : State) : (mainInit s).ADCSRA &&& (1 <<< ADIF) = 0 :=
  writeADCSRA_start_flag _

theorem step_flag_clear (s : State) (e : Event) (he : ∀ lo hi, e ≠ Event.adc lo hi)
    (h : s.ADCSRA &&& (1 <<< ADIF) = 0) : (step s e).ADCSRA &&& (1 <<< ADIF) = 0 := by
  cases e with
  | edge => exact h
  | ovf =>
    have e : (isrTIM0_OVF s).ADCSRA = s.ADCSRA := by
      unfold isrTIM0_OVF; split <;> rfl
    rw [show step s Event.ovf = isrTIM0_OVF s from rfl, e]; exact h
  | wdt => exact h
  | main =>
    rw [show step s Event.main = mainLoop s from rfl, mainLoop_of_not_flag s h]; exact h
  | adc lo hi => exact absurd rfl (he lo hi)
  | tick =>
    have e1 : (timerCount s).ADCSRA = s.ADCSRA := by
      unfold timerCount; split <;> rfl
    have e2 : ∀ u : State, (ovfDispatch u).ADCSRA = u.ADCSRA := by
      intro u
      unfold ovfDispatch isrTIM0_OVF
      split
      · split <;> rfl
      · rfl
    rw [show step s Event.tick = ovfDispatch (timerCount s) from rfl, e2, e1]; exact h

/-- A run in which no conversion completes never shows the main loop a set
`ADIF`, once the flag is clear. -/
theorem adifUnseen_of_no_adc (evs : List Event) :
    ∀ s : State, s.ADCSRA &&& (1 <<< ADIF) = 0 → (∀ lo hi, Event.adc lo hi ∉ evs) →
      adifUnseen s evs = true := by
  induction evs with
  | nil => intro s _ _; rfl
  | cons e es ih =>
    intro s h hne
    have he : ∀ lo hi, e ≠ Event.adc lo hi := fun lo hi hc => hne lo hi (by simp [hc])
    have hes : ∀ lo hi, Event.adc lo hi ∉ es :=
      fun lo hi hc => hne lo hi (List.mem_cons_of_mem _ hc)
    simp only [adifUnseen, Bool.and_eq_true]
    refine ⟨?_, ih (step s e) (step_flag_clear s e he h) hes⟩
    simp [h]

/-- C13: in every run from power-on (where `pulseticks` is `256 - 6`) in which
no main-loop iteration finds `ADIF` set, `pulseticks` is 250 in every state,
for any interleaving of edges, overflows, watchdog wake-ups, ticks and ADC
events; 250 is also the value a calibration to index 3 (6 ticks) stores, so
the handlers act as for a calibrated 6: an edge taken in any such state keeps
driver-enable on for exactly 6 ticks and the LED for 256 more. A run in which
the conversion never completes is such a run. -/
theorem default_pulseticks (s0 : State) (h0 : s0.pulseticks = (256 - 6) % 256) :
    (∀ evs : List Event, adifUnseen (mainInit s0) evs = true →
      ∀ st ∈ mainInit s0 :: trace (mainInit s0) evs,
        st.pulseticks = 250 ∧ st.pulseticks = (256 - ticktable.getD 3 0) % 256 ∧
        ∀ evs' : List Event, undisturbed evs' →
          (driverOn (run (isrINT0 st) evs') = true ↔ countTicks evs' < 6) ∧
          (ledOn (run (isrINT0 st) evs') = true ↔ countTicks evs' < 6 + 256) ∧
          ovfRuns (isrINT0 st) evs' = overflowsBy 6 (countTicks evs')) ∧
    (∀ evs : List Event, (∀ lo hi, Event.adc lo hi ∉ evs) →
      adifUnseen (mainInit s0) evs = true) := by
  refine ⟨?_, fun evs hne => adifUnseen_of_no_adc evs _ (mainInit_flag_clear s0) hne⟩
  intro evs hu st hst
  have hi : (mainInit s0).pulseticks = 250 := by
    rw [mainInit_pulseticks, h0]
  have hp : st.pulseticks = 250 := by
    rcases List.mem_cons.1 hst with hst | hst
    · rw [hst]; exact hi
    · rw [trace_pulseticks_of_unseen evs _ hu st hst]; exact hi
  refine ⟨hp, by rw [hp]; rfl, ?_⟩
  intro evs' hq
  obtain ⟨w1, w2, _, w4⟩ := edge_window st evs' (by omega) hq
  rw [hp] at w1 w2 w4
  exact ⟨w1, w2, w4⟩

/-- Instance of C13: a conversion result arrives but no main-loop iteration
follows it; an edge then opens a window of 6 ticks. -/
theorem default_pulseticks_witness :
    (run (mainInit powerOn) [.edge, .tick, .wdt, .main, .adc 255 3, .tick]).pulseticks = 250 ∧
    (driverOn (run (isrINT0 (run (mainInit powerOn)
        [.edge, .tick, .wdt, .main, .adc 255 3, .tick])) (ticks 5)) = true ↔
      countTicks (ticks 5) < 6) ∧
    adifUnseen (mainInit powerOn) [.edge, .main, .tick, .ovf, .wdt, .main] = true :=
  ⟨((default_pulseticks powerOn (by decide)).1
      [.edge, .tick, .wdt, .main, .adc 255 3, .tick] (by decide)
      (run (mainInit powerOn) [.edge, .tick, .wdt, .main, .adc 255 3, .tick]) (by decide)).1,
   (((default_pulseticks powerOn (by decide)).1
      [.edge, .tick, .wdt, .main, .adc 255 3, .tick] (by decide)
      (run (mainInit powerOn) [.edge, .tick, .wdt, .main, .adc 255 3, .tick]) (by decide)).2.2
      (ticks 5) (by decide)).1,
   (default_pulseticks powerOn (by decide)).2 [.edge, .main, .tick, .ovf, .wdt, .main]
     (by intro lo hi h; simp at h)⟩

theorem run_sample_main (s : State) (v : Nat) (hv : v ≤ 1023) :
    (run s [sample v, Event.main]).pulseticks = (256 - ticktable.getD (v / 128) 0) % 256 :=
  calibrate_sample s v hv

theorem ticktable_window (i : Nat) (hi : i < 8) :
    256 - (256 - ticktable.getD i 0) % 256 = ticktable.getD i 0 ∧
    (256 - ticktable.getD i 0) % 256 < 256 := by
  have hb := ticktable_getD_pos i hi
  omega

/-- C15 fails as stated: nothing in the code bounds the change between
consecutive conversions. With the results 0 (index 0) and 1023 (index 7), an
edge taken before the main loop has consumed the second result loads the
stale countdown of 1 tick (`TCNT0 = 255`) and the driver is off after one
tick, while the up-to-date countdown is 94 ticks (`TCNT0 = 162`) and the
driver is still on after one tick: the two windows are six table steps
apart. -/
theorem stale_window_unbounded :
    calibIndex 0 0 = 0 ∧ calibIndex 255 3 = 7 ∧
    (run (mainInit powerOn) [sample 0, .main, sample 1023, .edge]).TCNT0 = 255 ∧
    driverOn (run (mainInit powerOn)
      ([sample 0, .main, sample 1023, .edge] ++ ticks 1)) = false ∧
    (run (mainInit powerOn) [sample 0, .main, sample 1023, .main, .edge]).TCNT0 = 162 ∧
    driverOn (run (mainInit powerOn)
      ([sample 0, .main, sample 1023, .main, .edge] ++ ticks 1)) = true ∧
    ticktable.getD 0 0 = 1 ∧ ticktable.getD 1 0 = 2 ∧ ticktable.getD 7 0 = 94 := by
  decide

/-- C15, amended: when a falling edge comes after a conversion has completed
but before the main loop has consumed it, the driver-enable window is the
tick-table entry of the previous conversion (a stale value); the window for
the up-to-date value is the entry of the latest one. The two are at most one
table step apart when the two consecutive results select indices that differ
by at most 1, which the code does not enforce. After the next main-loop
iteration, and likewise after any further conversion has completed and been
polled, `pulseticks` is the value for the latest result. -/
theorem stale_window (s : State) (v1 v2 : Nat) (h1 : v1 ≤ 1023) (h2 : v2 ≤ 1023) :
    (∀ evs : List Event, undisturbed evs →
      (driverOn (run s ([sample v1, .main, sample v2, .edge] ++ evs)) = true ↔
        countTicks evs < ticktable.getD (v1 / 128) 0)) ∧
    (∀ evs : List Event, undisturbed evs →
      (driverOn (run s ([sample v1, .main, sample v2, .main, .edge] ++ evs)) = true ↔
        countTicks evs < ticktable.getD (v2 / 128) 0)) ∧
    (v1 / 128 ≤ v2 / 128 + 1 → v2 / 128 ≤ v1 / 128 + 1 →
      ticktable.getD (v2 / 128 - 1) 0 ≤ ticktable.getD (v1 / 128) 0 ∧
      ticktable.getD (v1 / 128) 0 ≤ ticktable.getD (min (v2 / 128 + 1) 7) 0) ∧
    (run s [sample v1, .main, sample v2, .edge, .main]).pulseticks
      = (256 - ticktable.getD (v2 / 128) 0) % 256 ∧
    (∀ v3 : Nat, v3 ≤ 1023 →
      (run s ([sample v1, .main, sample v2, .edge] ++ [sample v3, .main])).pulseticks
        = (256 - ticktable.getD (v3 / 128) 0) % 256) := by
  have hi1 : v1 / 128 < 8 := by omega
  have hi2 : v2 / 128 < 8 := by omega
  refine ⟨?_, ?_, ?_, ?_, ?_⟩
  · intro evs hq
    rw [run_append]
    have hp : (run s [sample v1, .main, sample v2]).pulseticks
        = (256 - ticktable.getD (v1 / 128) 0) % 256 := calibrate_sample s v1 h1
    have hw := edge_window (run s [sample v1, .main, sample v2]) evs
      (by rw [hp]; exact (ticktable_window _ hi1).2) hq
    rw [hp, (ticktable_window _ hi1).1] at hw
    exact hw.1
  · intro evs hq
    rw [run_append]
    have hp : (run s [sample v1, .main, sample v2, .main]).pulseticks
        = (256 - ticktable.getD (v2 / 128) 0) % 256 :=
      calibrate_sample (run s [sample v1, .main]) v2 h2
    have hw := edge_window (run s [sample v1, .main, sample v2, .main]) evs
      (by rw [hp]; exact (ticktable_window _ hi2).2) hq
    rw [hp, (ticktable_window _ hi2).1] at hw
    exact hw.1
  · intro ha hb
    exact ⟨ticktable_mono _ _ (by omega) hi1,
      ticktable_mono _ _ (by omega) (by omega)⟩
  · have hf : (isrINT0 (run s [sample v1, .main, sample v2])).ADCSRA &&& (1 <<< ADIF) ≠ 0 :=
      adcComplete_flag (run s [sample v1, .main]) (v2 % 256) (v2 / 256)
    have e := mainLoop_pulseticks_of_flag _ hf
    have hl : (isrINT0 (run s [sample v1, .main, sample v2])).ADCL = v2 % 256 := by
      show (v2 % 256) % 256 = v2 % 256
      omega
    have hh : (isrINT0 (run s [sample v1, .main, sample v2])).ADCH = v2 / 256 := by
      show (v2 / 256) % 256 = v2 / 256
      omega
    rw [hl, hh, calibIndex_sample v2 h2] at e
    exact e
  · intro v3 h3
    rw [run_append]
    exact run_sample_main _ v3 h3

/-- Instance of C15, amended: results 500 (index 3) and 520 (index 4); the
stale edge opens the 6-tick window, then the main loop stores the value for
index 4. -/
theorem stale_window_witness :
    (driverOn (run (mainInit powerOn)
        ([sample 500, .main, sample 520, .edge] ++ ticks 5)) = true ↔
      countTicks (ticks 5) < ticktable.getD (500 / 128) 0) ∧
    (run (mainInit powerOn) [sample 500, .main, sample 520, .edge, .main]).pulseticks
      = (256 - ticktable.getD (520 / 128) 0) % 256 :=
  ⟨(stale_window (mainInit powerOn) 500 520 (by decide) (by decide)).1 (ticks 5) (by decide),
   (stale_window (mainInit powerOn) 500 520 (by decide) (by decide)).2.2.2.1⟩

/-! ## Outputs on means timer armed: C18 -/

theorem isrINT0_armedInv (s : State) (h : s.PORTB ∈ portValues) : armedInv (isrINT0 s) :=
  Or.inr ⟨Or.inl (isrINT0_portValues s h), rfl, rfl, rfl⟩

theorem armedInv_port (s : State) (h : armedInv s) : s.PORTB ∈ portValues := by
  rcases h with ⟨h, _⟩ | ⟨h | h, _⟩ <;> rw [h] <;> decide

theorem armedInv_congr (s s' : State) (h : armedInv s) (hp : s'.PORTB = s.PORTB)
    (hm : s'.TIMSK0 = s.TIMSK0) (ha : s'.TCCR0A = s.TCCR0A) (hb : s'.TCCR0B = s.TCCR0B) :
    armedInv s' := by
  unfold armedInv at h ⊢
  rw [hp, hm, ha, hb]
  exact h

theorem isrTIM0_OVF_armedInv (s : State) (h : armedInv s) : armedInv (isrTIM0_OVF s) := by
  rcases h with ⟨hp, _⟩ | ⟨hp | hp, hm, hb, ha⟩
  · have hd : s.PORTB.testBit 0 = false := by rw [hp]; rfl
    rw [isrTIM0_OVF_of_not_driver s hd]
    refine Or.inl ⟨?_, rfl⟩
    show (s.PORTB ||| 0x08) % 256 = 0x2e
    rw [hp]; rfl
  · have hd : s.PORTB.testBit 0 = true := by rw [hp]; rfl
    rw [isrTIM0_OVF_of_driver s hd]
    refine Or.inr ⟨Or.inr ?_, hm, hb, ha⟩
    show (s.PORTB &&& cnot 0x01) % 256 = 0x26
    rw [hp]; rfl
  · have hd : s.PORTB.testBit 0 = false := by rw [hp]; rfl
    rw [isrTIM0_OVF_of_not_driver s hd]
    refine Or.inl ⟨?_, rfl⟩
    show (s.PORTB ||| 0x08) % 256 = 0x2e
    rw [hp]; rfl

theorem step_armedInv (s : State) (e : Event) (h : armedInv s) : armedInv (step s e) := by
  cases e with
  | edge => exact isrINT0_armedInv s (armedInv_port s h)
  | ovf => exact isrTIM0_OVF_armedInv s h
  | wdt => exact h
  | main =>
    obtain ⟨f1, f2, f3, _, _, f6⟩ := mainLoop_frame s
    exact armedInv_congr s _ h f1 f6 f2 f3
  | adc lo hi => exact armedInv_congr s _ h rfl rfl rfl rfl
  | tick =>
    obtain ⟨f1, f2, f3, f4⟩ := timerCount_frame s
    have h1 : armedInv (timerCount s) := armedInv_congr s _ h f1 f2 f3 f4
    show armedInv (ovfDispatch (timerCount s))
    unfold ovfDispatch
    split
    · exact isrTIM0_OVF_armedInv _ (armedInv_congr _ _ h1 rfl rfl rfl rfl)
    · exact h1

theorem run_armedInv (evs : List Event) :
    ∀ s : State, armedInv s → armedInv (run s evs) := by
  induction evs with
  | nil => intro s h; exact h
  | cons e es ih => intro s h; exact ih (step s e) (step_armedInv s e h)

theorem armedInv_outputs (s : State) (h : armedInv s) :
    (s.PORTB.testBit 3 = false ↔ s.TIMSK0 = 0x02) ∧
    ((s.PORTB.testBit 0 = true ∨ s.PORTB.testBit 3 = false) →
      s.TCCR0B = 5 ∧ s.TCCR0A = 0 ∧ s.TIMSK0 = 0x02) := by
  rcases h with ⟨hp, hm⟩ | ⟨hp | hp, hm, hb, ha⟩
  · rw [hp, hm]
    refine ⟨⟨fun hc => absurd hc (by decide), fun hc => absurd hc (by decide)⟩, ?_⟩
    intro hc
    rcases hc with hc | hc <;> exact absurd hc (by decide)
  · rw [hp, hm]
    exact ⟨⟨fun _ => rfl, fun _ => rfl⟩, fun _ => ⟨hb, ha, rfl⟩⟩
  · rw [hp, hm]
    exact ⟨⟨fun _ => rfl, fun _ => rfl⟩, fun _ => ⟨hb, ha, rfl⟩⟩

/-- The overflow handler never turns the LED on. -/
theorem isrTIM0_OVF_led (s : State) (h : (isrTIM0_OVF s).PORTB.testBit 3 = false) :
    s.PORTB.testBit 3 = false ∧ s.PORTB.testBit 0 = true := by
  cases hd : s.PORTB.testBit 0
  · rw [isrTIM0_OVF_of_not_driver s hd] at h
    have h' : ((s.PORTB ||| 0x08) % 256).testBit 3 = false := h
    rw [ovf_led_port_testBit] at h'
    simp at h'
  · rw [isrTIM0_OVF_of_driver s hd] at h
    have h' : ((s.PORTB &&& cnot 0x01) % 256).testBit 3 = false := h
    rw [ovf_driver_port_testBit] at h'
    refine ⟨?_, rfl⟩
    simpa using h'

/-- A bare run of the overflow handler in the short phase leaves the machine
in the long phase of a countdown. -/
theorem isrTIM0_OVF_liveInv (s : State) (h : liveInv s) : liveInv (isrTIM0_OVF s) := by
  obtain ⟨hp, hl⟩ := h
  refine ⟨by rw [isrTIM0_OVF_pulseticks]; exact hp, ?_⟩
  intro h3
  obtain ⟨o3, o0⟩ := isrTIM0_OVF_led s h3
  obtain ⟨n, t, hn, hn', ht, ha, hb, h1, h2, _⟩ := hl o3
  have htn : t < n := by
    by_contra hc
    have := (h2 (by omega) ht).1
    rw [o0] at this
    exact Bool.noConfusion this
  obtain ⟨_, _, pm, pc, pf⟩ := h1 htn
  refine ⟨1, s.TCNT0 + 1, by omega, by omega, by omega, ?_⟩
  rw [isrTIM0_OVF_of_driver s o0]
  refine ⟨ha, hb, ?_, ?_, ?_⟩
  · intro hc; omega
  · intro _ _
    refine ⟨?_, ?_, pm, ?_, pf⟩
    · show ((s.PORTB &&& cnot 0x01) % 256).testBit 0 = false
      rw [ovf_driver_port_testBit]; simp
    · show ((s.PORTB &&& cnot 0x01) % 256).testBit 3 = false
      rw [ovf_driver_port_testBit, o3]; simp
    · show s.TCNT0 = s.TCNT0 + 1 - 1
      omega
  · intro hc; omega

theorem liveInv_congr (s s' : State) (h : liveInv s) (hq : s'.pulseticks < 256)
    (hp : s'.PORTB = s.PORTB) (ha : s'.TCCR0A = s.TCCR0A) (hb : s'.TCCR0B = s.TCCR0B)
    (hc : s'.TCNT0 = s.TCNT0) (hf : s'.TIFR0 = s.TIFR0) (hm : s'.TIMSK0 = s.TIMSK0) :
    liveInv s' := by
  refine ⟨hq, ?_⟩
  intro h3
  rw [hp] at h3
  obtain ⟨n, t, hn, hn', ht, hae⟩ := h.2 h3
  exact ⟨n, t, hn, hn', ht, afterEdge_congr n t s s' hae hp ha hb hc hf hm⟩

theorem ovfDispatch_led (s : State) (h : (ovfDispatch s).PORTB.testBit 3 = false) :
    s.PORTB.testBit 3 = false := by
  unfold ovfDispatch at h
  split at h
  · exact (isrTIM0_OVF_led _ h).1
  · exact h

theorem step_liveInv (s : State) (e : Event) (h : liveInv s) : liveInv (step s e) := by
  cases e with
  | edge =>
    refine ⟨h.1, fun _ => ?_⟩
    exact ⟨256 - s.pulseticks, 0, by have := h.1; omega, by omega, by omega,
      afterEdge_isrINT0 s h.1⟩
  | ovf => exact isrTIM0_OVF_liveInv s h
  | wdt => exact h
  | main =>
    obtain ⟨f1, f2, f3, f4, f5, f6⟩ := mainLoop_frame s
    have hq : (mainLoop s).pulseticks < 256 := by
      by_cases hf : s.ADCSRA &&& (1 <<< ADIF) ≠ 0
      · rw [mainLoop_pulseticks_of_flag s hf]; exact Nat.mod_lt _ (by norm_num)
      · rw [mainLoop_pulseticks_of_not_flag s hf]; exact h.1
    exact liveInv_congr s _ h hq f1 f2 f3 f4 f5 f6
  | adc lo hi => exact liveInv_congr s _ h h.1 rfl rfl rfl rfl rfl rfl
  | tick =>
    refine ⟨by rw [show step s Event.tick = timerTick s from rfl, timerTick_pulseticks]; exact h.1,
      ?_⟩
    intro h3
    have h3' : s.PORTB.testBit 3 = false := by
      have := ovfDispatch_led (timerCount s) h3
      rwa [(timerCount_frame s).1] at this
    obtain ⟨n, t, hn, hn', ht, hae⟩ := h.2 h3'
    obtain ⟨hae', _⟩ := afterEdge_tick n t s hn hn' hae
    refine ⟨n, t + 1, hn, hn', ?_, hae'⟩
    by_contra hc
    have h4 := (hae'.2.2.2.2 (by omega)).2.1
    have h3'' : (timerTick s).PORTB.testBit 3 = false := h3
    rw [h4] at h3''
    exact Bool.noConfusion h3''

theorem run_liveInv (evs : List Event) :
    ∀ s : State, liveInv s → liveInv (run s evs) := by
  induction evs with
  | nil => intro s h; exact h
  | cons e es ih => intro s h; exact ih (step s e) (step_liveInv s e h)

/-- From a state in which outputs and timer agree and the LED, while on,
belongs to a running countdown, 512 ticks without an edge end in idle. -/
theorem idle_after_512 (s : State) (evs : List Event) (ha : armedInv s) (hl : liveInv s)
    (hq : undisturbed evs) (hc : 512 ≤ countTicks evs) : isIdle (run s evs) = true := by
  cases h3 : s.PORTB.testBit 3
  · obtain ⟨n, t, hn, hn', _, hae⟩ := hl.2 h3
    obtain ⟨r1, _, _⟩ := run_afterEdge n hn hn' evs t s hq hae
    exact (afterEdge_outputs _ _ _ r1).2.2.2 (by omega)
  · have hi : isIdle s = true := by
      rcases ha with ⟨hp, hm⟩ | ⟨hp | hp, _⟩
      · rw [isIdle_iff, hp, hm]; exact ⟨rfl, rfl, rfl⟩
      · rw [hp] at h3; exact absurd h3 (by decide)
      · rw [hp] at h3; exact absurd h3 (by decide)
    have hr : phaseRank s = 0 := by
      have hd : driverOn s = false := by
        have := ((isIdle_iff s).1 hi).1
        exact this
      simp only [phaseRank, hd, hi, if_true, Bool.false_eq_true, if_false]
    have := run_phaseRank evs s hq.1
    exact isIdle_of_phaseRank _ (by omega)

/-- C18: in every state reachable from a post-initialisation state
(`PORTB = 0x2e`, overflow interrupt disabled: `TIMSK0 = 0`) by any sequence
of events, the LED is asserted (`PORTB` bit 3 = 0) if and only if the overflow
interrupt is enabled (`TIMSK0 = 0x02`); whenever driver-enable or the LED is
asserted the timer is clocked in mode 0 (`TCCR0B = 5`, `TCCR0A = 0`) and
armed; and, `pulseticks` being an 8-bit value, the de-asserting overflows do
come: 512 timer ticks without a further edge always end in idle. -/
theorem led_iff_armed (s0 : State) (evs : List Event) (h0 : s0.PORTB = 0x2e)
    (hd : s0.TIMSK0 = 0) :
    ((run s0 evs).PORTB.testBit 3 = false ↔ (run s0 evs).TIMSK0 = 0x02) ∧
    (((run s0 evs).PORTB.testBit 0 = true ∨ (run s0 evs).PORTB.testBit 3 = false) →
      (run s0 evs).TCCR0B = 5 ∧ (run s0 evs).TCCR0A = 0 ∧ (run s0 evs).TIMSK0 = 0x02) ∧
    (s0.pulseticks < 256 → ∀ evs' : List Event, undisturbed evs' → 512 ≤ countTicks evs' →
      isIdle (run (run s0 evs) evs') = true) := by
  have ha : armedInv (run s0 evs) := run_armedInv evs s0 (Or.inl ⟨h0, hd⟩)
  obtain ⟨a1, a2⟩ := armedInv_outputs _ ha
  refine ⟨a1, a2, ?_⟩
  intro hp evs' hq hc
  have hl0 : liveInv s0 := by
    refine ⟨hp, fun h3 => ?_⟩
    rw [h0] at h3
    exact absurd h3 (by decide)
  exact idle_after_512 _ evs' ha (run_liveInv evs s0 hl0) hq hc

/-- Instance of C18: after an edge and a main-loop iteration the LED is on
and the overflow interrupt enabled; after both overflows neither. -/
theorem led_iff_armed_witness :
    ((run (mainInit powerOn) [.edge, .main]).PORTB.testBit 3 = false ↔
      (run (mainInit powerOn) [.edge, .main]).TIMSK0 = 0x02) ∧
    (run (mainInit powerOn) [.edge, .main]).PORTB.testBit 3 = false ∧
    ((run (mainInit powerOn) [.edge, .ovf, .ovf]).PORTB.testBit 3 = false ↔
      (run (mainInit powerOn) [.edge, .ovf, .ovf]).TIMSK0 = 0x02) ∧
    (run (mainInit powerOn) [.edge, .ovf, .ovf]).PORTB.testBit 3 = true :=
  ⟨(led_iff_armed (mainInit powerOn) [.edge, .main] (by decide) (by decide)).1,
   by decide,
   (led_iff_armed (mainInit powerOn) [.edge, .ovf, .ovf] (by decide) (by decide)).1,
   by decide⟩

/-! ## Termination in idle: C6 -/

/-- No event other than an edge moves the machine away from idle, and every
run of the overflow handler, bare or taken at a timer tick, moves it one phase
closer. -/
theorem step_phaseRank_taken (s : State) (e : Event) (he : e ≠ Event.edge) :
    phaseRank (step s e) ≤ phaseRank s - (if ovfTaken s e then 1 else 0) := by
  cases e with
  | edge => exact absurd rfl he
  | ovf => simpa [step, ovfTaken] using isrTIM0_OVF_phaseRank s
  | wdt => simp [step, isrWDT, ovfTaken]
  | main =>
    have h := mainLoop_frame s
    simp [step, ovfTaken, phaseRank_congr (mainLoop s) s h.1 h.2.2.2.2.2]
  | adc lo hi => simp [step, ovfTaken, phaseRank_congr (adcComplete s lo hi) s rfl rfl]
  | tick =>
    have hf := timerCount_frame s
    have hc : phaseRank (timerCount s) = phaseRank s := phaseRank_congr _ _ hf.1 hf.2.1
    show phaseRank (ovfDispatch (timerCount s))
      ≤ phaseRank s - (if ovfPending (timerCount s) = true then 1 else 0)
    by_cases hp : ovfPending (timerCount s) = true
    · rw [if_pos hp]
      unfold ovfDispatch
      rw [if_pos hp]
      have h := isrTIM0_OVF_phaseRank
        { timerCount s with TIFR0 := ((timerCount s).TIFR0 % 256) &&& 0xfd }
      have hc' : phaseRank { timerCount s with TIFR0 := ((timerCount s).TIFR0 % 256) &&& 0xfd }
          = phaseRank (timerCount s) := phaseRank_congr _ _ rfl rfl
      rw [hc', hc] at h
      exact h
    · rw [if_neg hp]
      unfold ovfDispatch
      rw [if_neg hp, hc]
      omega

theorem run_phaseRank_runs (evs : List Event) :
    ∀ s : State, Event.edge ∉ evs → phaseRank (run s evs) ≤ phaseRank s - ovfRuns s evs := by
  induction evs with
  | nil => intro s _; simp [run, ovfRuns]
  | cons e es ih =>
    intro s hne
    have he : e ≠ Event.edge := fun h => hne (by simp [h])
    have hes : Event.edge ∉ es := fun h => hne (List.mem_cons_of_mem _ h)
    have h1 := step_phaseRank_taken s e he
    have h2 := ih (step s e) hes
    show phaseRank (run (step s e) es)
      ≤ phaseRank s - ((if ovfTaken s e then 1 else 0) + ovfRuns (step s e) es)
    omega

/-- With the overflow interrupt off and no edge, the overflow handler does not
run. -/
theorem ovfRuns_of_disabled (evs : List Event) :
    ∀ s : State, s.TIMSK0 = 0 → undisturbed evs → ovfRuns s evs = 0 := by
  induction evs with
  | nil => intro s _ _; rfl
  | cons e es ih =>
    intro s hm hq
    obtain ⟨he, he', hes⟩ := undisturbed_cons e es hq
    show (if ovfTaken s e then 1 else 0) + ovfRuns (step s e) es = 0
    cases e with
    | edge => exact absurd rfl he
    | ovf => exact absurd rfl he'
    | wdt =>
      have hm' : (step s Event.wdt).TIMSK0 = 0 := hm
      rw [ih _ hm' hes]
      simp [ovfTaken]
    | main =>
      have hm' : (step s Event.main).TIMSK0 = 0 := by
        rw [show step s Event.main = mainLoop s from rfl, (mainLoop_frame s).2.2.2.2.2]
        exact hm
      rw [ih _ hm' hes]
      simp [ovfTaken]
    | adc lo hi =>
      have hm' : (step s (Event.adc lo hi)).TIMSK0 = 0 := hm
      rw [ih _ hm' hes]
      simp [ovfTaken]
    | tick =>
      obtain ⟨_, f2, _, _, hp⟩ := timerTick_disabled s hm
      have hm' : (step s Event.tick).TIMSK0 = 0 := by
        rw [show step s Event.tick = timerTick s from rfl, f2]
        exact hm
      rw [ih _ hm' hes]
      simp [ovfTaken, hp]

/-- From a state in which outputs and timer agree and the LED, while on,
belongs to a running countdown, an edge-free run takes the overflow handler at
most twice. -/
theorem ovfRuns_le_two (s : State) (evs : List Event) (ha : armedInv s) (hl : liveInv s)
    (hq : undisturbed evs) : ovfRuns s evs ≤ 2 := by
  cases h3 : s.PORTB.testBit 3
  · obtain ⟨n, t, hn, hn', _, hae⟩ := hl.2 h3
    obtain ⟨_, r2, _⟩ := run_afterEdge n hn hn' evs t s hq hae
    have hb : overflowsBy n (t + countTicks evs) ≤ 2 := by
      unfold overflowsBy
      split_ifs <;> omega
    omega
  · have hm : s.TIMSK0 = 0 := by
      rcases ha with ⟨_, hm⟩ | ⟨hp | hp, _⟩
      · exact hm
      · rw [hp] at h3; exact absurd h3 (by decide)
      · rw [hp] at h3; exact absurd h3 (by decide)
    rw [ovfRuns_of_disabled evs s hm hq]
    omega

theorem timerTick_idle (s : State) (h : isIdle s = true) : isIdle (timerTick s) = true := by
  rw [isIdle_iff] at h ⊢
  obtain ⟨f1, f2, _⟩ := timerTick_disabled s h.2.2
  rw [f1, f2]
  exact h

/-- C6: termination in idle. With no further falling edge, from every state
whatsoever, once the overflow handler has run twice (counting the runs taken at
timer ticks as well as bare runs, with any main-loop iterations, watchdog
wake-ups and ADC results around them) the machine is idle: `PORTB` bit 0 = 0,
bit 3 = 1, `TIMSK0 = 0`; one run is enough when the driver is already off.
From every state reachable from a post-initialisation state (`PORTB = 0x2e`,
`TIMSK0 = 0`, `pulseticks` an 8-bit value) these runs do come and are at most
two: in every continuation without an edge the timer takes the handler at most
twice, and after 512 timer ticks the machine is idle. Idle is kept by the
overflow handler, the main-loop step and the timer tick. -/
theorem idle_termination :
    (∀ (s : State) (evs : List Event), Event.edge ∉ evs → 2 ≤ ovfRuns s evs →
      (run s evs).PORTB.testBit 0 = false ∧ (run s evs).PORTB.testBit 3 = true ∧
      (run s evs).TIMSK0 = 0) ∧
    (∀ (s : State) (evs : List Event), s.PORTB.testBit 0 = false →
      Event.edge ∉ evs → 1 ≤ ovfRuns s evs → isIdle (run s evs) = true) ∧
    (∀ (s0 : State) (evs0 evs : List Event), s0.PORTB = 0x2e → s0.TIMSK0 = 0 →
      s0.pulseticks < 256 → undisturbed evs →
      ovfRuns (run s0 evs0) evs ≤ 2 ∧
      (512 ≤ countTicks evs → isIdle (run (run s0 evs0) evs) = true)) ∧
    (∀ s : State, isIdle s = true →
      isIdle (isrTIM0_OVF s) = true ∧ isIdle (mainLoop s) = true ∧
      isIdle (timerTick s) = true) := by
  refine ⟨?_, ?_, ?_, ?_⟩
  · intro s evs hne hc
    have h := run_phaseRank_runs evs s hne
    have h2 := phaseRank_le_two s
    exact (isIdle_iff _).1 (isIdle_of_phaseRank _ (by omega))
  · intro s evs hd hne hc
    have h := run_phaseRank_runs evs s hne
    have h1 : phaseRank s ≤ 1 := by
      simp only [phaseRank, driverOn, hd, Bool.false_eq_true, if_false]
      split <;> omega
    exact isIdle_of_phaseRank _ (by omega)
  · intro s0 evs0 evs h0 hd hp hq
    have ha : armedInv (run s0 evs0) := run_armedInv evs0 s0 (Or.inl ⟨h0, hd⟩)
    have hl0 : liveInv s0 := by
      refine ⟨hp, fun h3 => ?_⟩
      rw [h0] at h3
      exact absurd h3 (by decide)
    have hl := run_liveInv evs0 s0 hl0
    exact ⟨ovfRuns_le_two _ evs ha hl hq, fun hc => idle_after_512 _ evs ha hl hq hc⟩
  · intro s hi
    have hd := ((isIdle_iff s).1 hi).1
    refine ⟨isrTIM0_OVF_idle_of_not_driver s hd, ?_, timerTick_idle s hi⟩
    have h := mainLoop_frame s
    rw [isIdle_iff] at hi ⊢
    rw [h.1, h.2.2.2.2.2]
    exact hi

/-- Instance of C6: after an edge with the default `pulseticks` the sixth tick
takes the overflow handler, and with one more run the machine is idle; after
an edge and 262 ticks the timer alone has taken the handler twice and the
machine is idle; and 512 ticks after an edge and a recalibration the machine
is idle too. -/
theorem idle_termination_witness :
    ovfRuns (isrINT0 (mainInit powerOn))
      [.tick, .tick, .main, .tick, .tick, .tick, .tick, .wdt, .ovf] = 2 ∧
    ((run (isrINT0 (mainInit powerOn))
        [.tick, .tick, .main, .tick, .tick, .tick, .tick, .wdt, .ovf]).PORTB.testBit 0 = false ∧
      (run (isrINT0 (mainInit powerOn))
        [.tick, .tick, .main, .tick, .tick, .tick, .tick, .wdt, .ovf]).PORTB.testBit 3 = true ∧
      (run (isrINT0 (mainInit powerOn))
        [.tick, .tick, .main, .tick, .tick, .tick, .tick, .wdt, .ovf]).TIMSK0 = 0) ∧
    ((run (isrINT0 (mainInit powerOn)) (ticks 262)).PORTB.testBit 0 = false ∧
      (run (isrINT0 (mainInit powerOn)) (ticks 262)).PORTB.testBit 3 = true ∧
      (run (isrINT0 (mainInit powerOn)) (ticks 262)).TIMSK0 = 0) ∧
    (ovfRuns (run (mainInit powerOn) [.adc 255 3, .main, .edge, .tick]) (ticks 512) ≤ 2 ∧
      isIdle (run (run (mainInit powerOn) [.adc 255 3, .main, .edge, .tick]) (ticks 512))
        = true) := by
  have h262 : 2 ≤ ovfRuns (isrINT0 (mainInit powerOn)) (ticks 262) := by
    rw [(edge_window (mainInit powerOn) (ticks 262) (by decide) (undisturbed_ticks 262)).2.2.2,
      countTicks_ticks]
    decide
  have h512 := idle_termination.2.2.1 (mainInit powerOn) [.adc 255 3, .main, .edge, .tick]
    (ticks 512) (by decide) (by decide) (by decide) (undisturbed_ticks 512)
  exact ⟨by decide,
    idle_termination.1 (isrINT0 (mainInit powerOn))
      [.tick, .tick, .main, .tick, .tick, .tick, .tick, .wdt, .ovf] (by decide) (by decide),
    idle_termination.1 (isrINT0 (mainInit powerOn)) (ticks 262) (undisturbed_ticks 262).1 h262,
    h512.1, h512.2 (by rw [countTicks_ticks])⟩

/-! ## Retriggering: C4 -/

theorem step_pulseticks_lt (s : State) (e : Event) (h : s.pulseticks < 256) :
    (step s e).pulseticks < 256 := by
  by_cases he : e = Event.main
  · subst he
    show (mainLoop s).pulseticks < 256
    by_cases hf : s.ADCSRA &&& (1 <<< ADIF) ≠ 0
    · rw [mainLoop_pulseticks_of_flag s hf]; exact Nat.mod_lt _ (by norm_num)
    · rw [mainLoop_pulseticks_of_not_flag s hf]; exact h
  · rw [step_pulseticks_of_ne_main s e he]; exact h

theorem run_pulseticks_lt (evs : List Event) :
    ∀ s : State, s.pulseticks < 256 → (run s evs).pulseticks < 256 := by
  induction evs with
  | nil => intro s h; exact h
  | cons e es ih => intro s h; exact ih (step s e) (step_pulseticks_lt s e h)

theorem adifUnseen_append (l1 l2 : List Event) : ∀ s : State,
    adifUnseen s (l1 ++ l2) = (adifUnseen s l1 && adifUnseen (run s l1) l2) := by
  induction l1 with
  | nil => intro s; simp [adifUnseen, run]
  | cons e es ih =>
    intro s
    show ((e != Event.main || s.ADCSRA &&& (1 <<< ADIF) == 0)
      && adifUnseen (step s e) (es ++ l2)) = _
    rw [ih (step s e)]
    simp only [adifUnseen, run, Bool.and_assoc]

theorem run_pulseticks_of_unseen (evs : List Event) :
    ∀ s : State, adifUnseen s evs = true → (run s evs).pulseticks = s.pulseticks := by
  induction evs with
  | nil => intro s _; rfl
  | cons e es ih =>
    intro s h
    simp only [adifUnseen, Bool.and_eq_true] at h
    show (run (step s e) es).pulseticks = _
    rw [ih (step s e) h.2, step_pulseticks_of_unseen s e h.1]

/-- An edge followed by undisturbed events with fewer ticks than the countdown
the edge loads: the driver is on in every state passed through and the
overflow handler does not run. -/
theorem edge_then_quiet (s : State) (seg : List Event) (hp : s.pulseticks < 256)
    (hq : undisturbed seg) (hk : countTicks seg < 256 - s.pulseticks) :
    (∀ st ∈ trace s (Event.edge :: seg), driverOn st = true) ∧
    ovfRuns s (Event.edge :: seg) = 0 := by
  have ha := afterEdge_isrINT0 s hp
  obtain ⟨_, r2, r3⟩ := run_afterEdge (256 - s.pulseticks) (by omega) (by omega) seg 0
    (isrINT0 s) hq ha
  refine ⟨?_, ?_⟩
  · intro st hst
    rcases List.mem_cons.1 hst with hst | hst
    · rw [hst]
      exact (isrINT0_effect s).1
    · obtain ⟨t', ht', hst'⟩ := r3 st hst
      exact (afterEdge_outputs _ t' st hst').1.2 (by omega)
  · show (if ovfTaken s Event.edge then 1 else 0) + ovfRuns (isrINT0 s) seg = 0
    have h0 : overflowsBy (256 - s.pulseticks) 0 = 0 := by
      unfold overflowsBy; rw [if_pos (by omega)]
    have hk' : overflowsBy (256 - s.pulseticks) (0 + countTicks seg) = 0 := by
      unfold overflowsBy; rw [if_pos (by omega)]
    simp only [ovfTaken, Bool.false_eq_true, if_false]
    omega

/-- A spaced train of edges keeps the driver on throughout, without a run of
the overflow handler, whatever the main loop does to `pulseticks` in
between. -/
theorem edgeRun_armed (segs : List (List Event)) :
    ∀ s : State, s.pulseticks < 256 → spaced s segs = true →
      (∀ st ∈ trace s (edgeRun segs), driverOn st = true) ∧
      ovfRuns s (edgeRun segs) = 0 := by
  induction segs with
  | nil => intro s _ _; exact ⟨by simp [edgeRun, trace], rfl⟩
  | cons seg rest ih =>
    intro s hp hs
    simp only [spaced, Bool.and_eq_true, decide_eq_true_eq] at hs
    obtain ⟨⟨hq, hk⟩, hr⟩ := hs
    obtain ⟨a1, a2⟩ := edge_then_quiet s seg hp hq hk
    obtain ⟨b1, b2⟩ := ih (run s (Event.edge :: seg))
      (run_pulseticks_lt _ s hp) hr
    have e : edgeRun (seg :: rest) = (Event.edge :: seg) ++ edgeRun rest := rfl
    rw [e, trace_append, ovfRuns_append]
    refine ⟨?_, by omega⟩
    intro st hst
    rcases List.mem_append.1 hst with hst | hst
    · exact a1 st hst
    · exact b1 st hst

theorem run_mem_trace (evs : List Event) (hne : evs ≠ []) :
    ∀ s : State, run s evs ∈ trace s evs := by
  induction evs with
  | nil => exact absurd rfl hne
  | cons e es ih =>
    intro s
    by_cases hes : es = []
    · subst hes
      simp [run, trace]
    · exact List.mem_cons_of_mem _ (ih hes (step s e))

/-- When `pulseticks` keeps its value throughout the train, a train spaced by
that one countdown is spaced. -/
theorem spaced_of_const (segs : List (List Event)) :
    ∀ s : State, (∀ seg ∈ segs, undisturbed seg ∧ countTicks seg < 256 - s.pulseticks) →
      (∀ st ∈ trace s (edgeRun segs), st.pulseticks = s.pulseticks) →
      spaced s segs = true ∧ (run s (edgeRun segs)).pulseticks = s.pulseticks := by
  induction segs with
  | nil => intro s _ _; exact ⟨rfl, rfl⟩
  | cons seg rest ih =>
    intro s hg hc
    have e : edgeRun (seg :: rest) = (Event.edge :: seg) ++ edgeRun rest := rfl
    rw [e, trace_append] at hc
    have hp1 : (run s (Event.edge :: seg)).pulseticks = s.pulseticks :=
      hc _ (List.mem_append_left _ (run_mem_trace _ (by simp) s))
    obtain ⟨i1, i2⟩ := ih (run s (Event.edge :: seg)) (by
      intro seg' hseg'
      rw [hp1]
      exact hg seg' (List.mem_cons_of_mem _ hseg')) (by
      intro st hst
      rw [hp1]
      exact hc st (List.mem_append_right _ hst))
    obtain ⟨hq, hk⟩ := hg seg (by simp)
    refine ⟨?_, ?_⟩
    · simp only [spaced, Bool.and_eq_true, decide_eq_true_eq]
      exact ⟨⟨hq, hk⟩, i1⟩
    · rw [e, run_append, i2, hp1]

/-- The train followed by a last edge and undisturbed events. -/
theorem edgeRun_last (s : State) (segs : List (List Event)) (last : List Event)
    (hp : s.pulseticks < 256) (hs : spaced s segs = true) (hl : undisturbed last) :
    (countTicks last < 256 - (run s (edgeRun segs)).pulseticks →
      (∀ st ∈ trace s (edgeRun segs ++ Event.edge :: last), driverOn st = true) ∧
      ovfRuns s (edgeRun segs ++ Event.edge :: last) = 0) ∧
    (driverOn (run s (edgeRun segs ++ Event.edge :: last)) = true ↔
      countTicks last < 256 - (run s (edgeRun segs)).pulseticks) ∧
    ovfRuns s (edgeRun segs ++ Event.edge :: last)
      = overflowsBy (256 - (run s (edgeRun segs)).pulseticks) (countTicks last) := by
  obtain ⟨a1, a2⟩ := edgeRun_armed segs s hp hs
  have hp' : (run s (edgeRun segs)).pulseticks < 256 := run_pulseticks_lt _ s hp
  obtain ⟨w1, _, _, w4⟩ := edge_window (run s (edgeRun segs)) last hp' hl
  refine ⟨?_, ?_, ?_⟩
  · intro hk
    obtain ⟨b1, b2⟩ := edge_then_quiet (run s (edgeRun segs)) last hp' hl hk
    rw [trace_append, ovfRuns_append, a2, b2]
    refine ⟨?_, rfl⟩
    intro st hst
    rcases List.mem_append.1 hst with hst | hst
    · exact a1 st hst
    · exact b1 st hst
  · rw [run_append]
    exact w1
  · rw [ovfRuns_append, a2, ← w4]
    show 0 + ((if ovfTaken (run s (edgeRun segs)) Event.edge then 1 else 0)
      + ovfRuns (isrINT0 (run s (edgeRun segs))) last) = _
    simp only [ovfTaken, Bool.false_eq_true, if_false]
    omega

/-- C4: retriggerability. Take any train of falling edges, with timer ticks,
main-loop iterations, watchdog wake-ups and ADC results between them, from
any state with an 8-bit `pulseticks`. If each edge comes strictly fewer
ticks after the previous one than the count `256 - pulseticks` that previous
edge loaded, then driver-enable is asserted in every state from the first edge
until the count `n` loaded by the last edge has elapsed after it, the overflow
handler does not run before that, and the `n`-th tick after the last edge is
the first to run it and de-asserts the driver. This holds even when the main
loop recalibrates `pulseticks` during the train. When `pulseticks` has one
value in every state of the run, `n = 256 - pulseticks` is the single count of
the claim for all edges; a run in which no main-loop iteration finds a
conversion result is such a run. -/
theorem retriggerable (s : State) (hp : s.pulseticks < 256) :
    (∀ (segs : List (List Event)) (last : List Event),
      spaced s segs = true → undisturbed last →
      (countTicks last < 256 - (run s (edgeRun segs)).pulseticks →
        (∀ st ∈ trace s (edgeRun segs ++ Event.edge :: last), driverOn st = true) ∧
        ovfRuns s (edgeRun segs ++ Event.edge :: last) = 0) ∧
      (driverOn (run s (edgeRun segs ++ Event.edge :: last)) = true ↔
        countTicks last < 256 - (run s (edgeRun segs)).pulseticks) ∧
      ovfRuns s (edgeRun segs ++ Event.edge :: last)
        = overflowsBy (256 - (run s (edgeRun segs)).pulseticks) (countTicks last)) ∧
    (∀ (segs : List (List Event)) (last : List Event),
      (∀ seg ∈ segs, undisturbed seg ∧ countTicks seg < 256 - s.pulseticks) →
      undisturbed last →
      (∀ st ∈ trace s (edgeRun segs ++ Event.edge :: last), st.pulseticks = s.pulseticks) →
      (countTicks last < 256 - s.pulseticks →
        (∀ st ∈ trace s (edgeRun segs ++ Event.edge :: last), driverOn st = true) ∧
        ovfRuns s (edgeRun segs ++ Event.edge :: last) = 0) ∧
      (driverOn (run s (edgeRun segs ++ Event.edge :: last)) = true ↔
        countTicks last < 256 - s.pulseticks) ∧
      ovfRuns s (edgeRun segs ++ Event.edge :: last)
        = overflowsBy (256 - s.pulseticks) (countTicks last)) ∧
    (∀ evs : List Event, adifUnseen s evs = true →
      ∀ st ∈ trace s evs, st.pulseticks = s.pulseticks) := by
  refine ⟨fun segs last hs hl => edgeRun_last s segs last hp hs hl, ?_,
    fun evs hu => trace_pulseticks_of_unseen evs s hu⟩
  intro segs last hg hl hc
  obtain ⟨hs, he⟩ := spaced_of_const segs s hg (by
    intro st hst
    exact hc st (by rw [trace_append]; exact List.mem_append_left _ hst))
  have h := edgeRun_last s segs last hp hs hl
  rw [he] at h
  exact h

set_option maxRecDepth 16000 in
/-- Instance of C4: calibration index 7 (94 ticks, `pulseticks = 162`), two
edges 50 ticks apart with a watchdog wake-up and a main-loop iteration between
them: the driver stays on until 93 ticks after the second edge and the 94th
tick is the first to run the overflow handler. And with a recalibration to
index 0 between the edges, the second edge loads a count of 1. -/
theorem retriggerable_witness :
    calibrated94.pulseticks = 162 ∧ countTicks fiftyTicks = 50 ∧
    ((∀ st ∈ trace calibrated94 (edgeRun [fiftyTicks] ++ Event.edge :: ticks 93),
        driverOn st = true) ∧
      ovfRuns calibrated94 (edgeRun [fiftyTicks] ++ Event.edge :: ticks 93) = 0) ∧
    (driverOn (run calibrated94 (edgeRun [fiftyTicks] ++ Event.edge :: ticks 94)) = true ↔
      countTicks (ticks 94) < 256 - calibrated94.pulseticks) ∧
    ovfRuns calibrated94 (edgeRun [fiftyTicks] ++ Event.edge :: ticks 94)
      = overflowsBy (256 - calibrated94.pulseticks) (countTicks (ticks 94)) ∧
    (run calibrated94 (edgeRun [[.tick, .adc 0 0, .main, .tick]])).pulseticks = 255 ∧
    (driverOn (run calibrated94
        (edgeRun [[.tick, .adc 0 0, .main, .tick]] ++ Event.edge :: ticks 1)) = true ↔
      countTicks (ticks 1)
        < 256 - (run calibrated94 (edgeRun [[.tick, .adc 0 0, .main, .tick]])).pulseticks) := by
  have h93 := (retriggerable calibrated94 (by decide)).2.1 [fiftyTicks] (ticks 93) (by decide)
    (undisturbed_ticks 93)
    (trace_pulseticks_of_unseen _ _ (adifUnseen_of_no_adc _ _ (by decide)
      (by intro lo hi h; simp [edgeRun, ticks, fiftyTicks] at h)))
  have h94 := (retriggerable calibrated94 (by decide)).2.1 [fiftyTicks] (ticks 94) (by decide)
    (undisturbed_ticks 94)
    (trace_pulseticks_of_unseen _ _ (adifUnseen_of_no_adc _ _ (by decide)
      (by intro lo hi h; simp [edgeRun, ticks, fiftyTicks] at h)))
  have hre := (retriggerable calibrated94 (by decide)).1 [[.tick, .adc 0 0, .main, .tick]]
    (ticks 1) (by decide) (by decide)
  exact ⟨by decide, by decide, h93.1 (by rw [countTicks_ticks]; decide), h94.2.1, h94.2.2,
    by decide, hre.2.1⟩

end Rs485
